import Mathlib

/- Formal models of the pyload PIC programmer sources: the paged memory
model and Intel HEX codec (intelhex.py), the BLoad and ICSP protocol
engines (bload.py, icsp.py), the target simulator (mock.py) and the
orchestration control flow (pyload.py, kt150.py).

Conventions of the shallow embedding: Python byte strings are List Nat
(one Nat per byte), text is List Char, absent values are Option, raised
exceptions are Option/Except results, and machine arithmetic is Nat/Int
with explicit mod where the source masks. -/

namespace Pyload

/-- Model of intelhex.PAGELEN: length of a page in 16-bit words. -/
def PAGELEN : Nat := 32

/-- Model of intelhex.PAGEBYTES = PAGELEN * 2. -/
def PAGEBYTES : Nat := PAGELEN * 2

/-- Model of bload.PAGESIZE = icsp.PAGESIZE: page size in bytes. -/
def PAGESIZE : Nat := 64

/-- A word slot of a Page: a concrete value or the absent marker None. -/
abbrev Word := Option Nat

/-- Value of one hexadecimal digit character, as accepted by Python
int(_, 16); a non-digit gives none (ValueError). -/
def hexDigit? (c : Char) : Option Nat :=
  if '0' ≤ c ∧ c ≤ '9' then some (c.toNat - 48)
  else if 'A' ≤ c ∧ c ≤ 'F' then some (c.toNat - 55)
  else if 'a' ≤ c ∧ c ≤ 'f' then some (c.toNat - 87)
  else none

/-- Fold a run of hex digits onto an accumulator (the core of int(s, 16)). -/
def parseHexFrom (acc : Nat) (l : List Char) : Option Nat :=
  l.foldlM (fun a c => (hexDigit? c).map fun d => a * 16 + d) acc

/-- Model of Python int(s, 16) on a plain string of hexadecimal digits:
empty or non-digit input raises ValueError (none).  Sign prefixes,
whitespace and underscore separators, which never occur in this
repository's data, are not modelled. -/
def parseHex? (l : List Char) : Option Nat :=
  if l = [] then none else parseHexFrom 0 l

/-- Model of intelhex.chunks(l, 4): successive 4-element chunks (the
last chunk may be shorter). -/
def chunks4 {α : Type} : List α → List (List α)
  | [] => []
  | [a] => [[a]]
  | [a, b] => [[a, b]]
  | [a, b, c] => [[a, b, c]]
  | a :: b :: c :: d :: rest => [a, b, c, d] :: chunks4 rest

/-- Model of Python list slice assignment l[start:stop] = v for
non-negative bounds: both indices are clipped to the list length and
stop is raised to at least start, then the selected range is replaced
by v (which may have a different length). -/
def sliceAssign {α : Type} (l : List α) (start stop : Nat) (v : List α) : List α :=
  let s := min start l.length
  let e := max (min stop l.length) s
  l.take s ++ v ++ l.drop e

/-- Parse of one 4-character chunk in intelhex.Page.__setitem__ and
Page.__init__: four blanks give the absent word, otherwise
int(x[:2], 16) + (int(x[2:], 16) << 8).  Outer none = ValueError. -/
def parseWord4 (x : List Char) : Option Word :=
  if x = [' ', ' ', ' ', ' '] then some Option.none
  else do
    let a ← parseHex? (x.take 2)
    let b ← parseHex? (x.drop 2)
    pure (some (a + (b <<< 8)))

/-- The word list denoted by a hex string in Page.__setitem__'s str case. -/
def strWords (s : List Char) : Option (List Word) :=
  (chunks4 s).mapM parseWord4

/-- Exceptions raised by the modelled Python code. -/
inductive PyErr where
  | indexError
  | valueError
  | typeError
  | runtimeError
  deriving DecidableEq, Repr

/-- Key argument of Page.__setitem__: an integer index or a slice. -/
inductive SetKey where
  | idx (i : Nat)
  | slice (start stop : Nat)

/-- Value argument of Page.__setitem__: an int, a hex string, or None. -/
inductive SetVal where
  | int (w : Nat)
  | str (s : List Char)
  | noneVal

/-- Model of intelhex.Page.__setitem__.  An int key i becomes the slice
(i, i+1) with length 1; a slice key keeps length = stop - start (a Python
int, so kept as Int here).  An int value is replicated across the slice;
a str value must have exactly length * 4 characters and is parsed in
4-character words; the None value always becomes the single element
list containing one absent word, whatever the slice length is. -/
def pageSetitem (page : List Word) (key : SetKey) (word : SetVal) :
    Except PyErr (List Word) :=
  let se : Nat × Nat := match key with
    | .slice a b => (a, b)
    | .idx i => (i, i + 1)
  let start := se.1
  let stop := se.2
  let length : Int := (stop : Int) - (start : Int)
  if stop > PAGELEN then .error .indexError
  else match word with
    | .int w => .ok (sliceAssign page start stop (List.replicate length.toNat (some w)))
    | .str s =>
      if length * 4 ≠ (s.length : Int) then .error .valueError
      else match strWords s with
        | Option.none => .error .valueError
        | some v => .ok (sliceAssign page start stop v)
    | .noneVal => .ok (sliceAssign page start stop [Option.none])

/-- Model of intelhex.Page() (s = None) followed by _pad: PAGELEN absent
slots. -/
def pageNew : List Word := List.replicate PAGELEN Option.none

/-- Model of intelhex.Page._pad: extend a short page to PAGELEN slots. -/
def pagePad (l : List Word) : List Word :=
  if l.length < PAGELEN then l ++ List.replicate (PAGELEN - l.length) Option.none
  else l

/-- Model of bload.calc_checksum: sum(data) & 0xFF. -/
def calc_checksum (data : List Nat) : Nat := data.sum &&& 0xFF

/-- Model of bload.get_address: the word address page_num * PAGESIZE // 2
encoded by int.to_bytes(2, 'little'); to_bytes raises OverflowError
(none) when the value does not fit in two bytes. -/
def get_address (page_num : Nat) : Option (List Nat) :=
  let addr := page_num * PAGESIZE / 2
  if addr < 2 ^ 16 then some [addr % 2 ^ 8, addr / 2 ^ 8] else none

/-- Model of mock.Port.ser_get_word: two bytes low then high, decoded by
int.from_bytes(low + high, 'little'). -/
def ser_get_word (low high : Nat) : Nat := low + high * 2 ^ 8

/-- Claim C7: calc_checksum equals the byte sum modulo 256, with
calc_checksum(b'') = 0 and calc_checksum(b'abcd') = 138. -/
theorem C7_calc_checksum_mod :
    (∀ data : List Nat, calc_checksum data = data.sum % 256)
    ∧ calc_checksum [] = 0 ∧ calc_checksum [0x61, 0x62, 0x63, 0x64] = 138 := by
  refine ⟨fun data => ?_, by decide, by decide⟩
  show data.sum &&& 255 = data.sum % 256
  have h : (255 : Nat) = 2 ^ 8 - 1 := by norm_num
  rw [h, Nat.and_pow_two_sub_one_eq_mod]

/-- Claim C8: get_address(12) = b'\x80\x01', and for every page number
whose word address fits in 16 bits, decoding the two little-endian bytes
and dividing by the page length in words recovers the page number. -/
theorem C8_address_roundtrip :
    get_address 12 = some [0x80, 0x01]
    ∧ ∀ p : Nat, p * PAGESIZE / 2 < 2 ^ 16 →
        ∃ lo hi, get_address p = some [lo, hi]
          ∧ ser_get_word lo hi / (PAGESIZE / 2) = p := by
  refine ⟨by decide, fun p hp => ?_⟩
  refine ⟨p * PAGESIZE / 2 % 2 ^ 8, p * PAGESIZE / 2 / 2 ^ 8, ?_, ?_⟩
  · unfold get_address
    simp only
    rw [if_pos hp]
  · unfold ser_get_word
    simp only [PAGESIZE] at *
    omega

/-- Witness for C8 at page number 12. -/
theorem C8_address_roundtrip_witness :
    ∃ lo hi, get_address 12 = some [lo, hi]
      ∧ ser_get_word lo hi / (PAGESIZE / 2) = 12 :=
  C8_address_roundtrip.2 12 (by decide)

/-- Claim C10: evaluation of Page.__setitem__ at the inputs used by
pyload.read_firmware.  A fresh page has PAGELEN = 32 slots, but
assigning None to the slice 4:7 replaces three slots by the single
element [None], leaving 30 slots, and the subsequent 9:17 assignment
leaves 23 slots, contradicting the fixed-length invariant. -/
theorem C10_setitem_none_slice_shrinks :
    pageNew.length = PAGELEN
    ∧ (pageSetitem pageNew (.slice 4 7) .noneVal).map List.length = .ok 30
    ∧ ((pageSetitem pageNew (.slice 4 7) .noneVal).bind
        (fun pg => pageSetitem pg (.slice 9 17) .noneVal)).map List.length = .ok 23
    ∧ (30 : Nat) ≠ PAGELEN := by
  refine ⟨by decide, by rfl, by rfl, by decide⟩

/-- A byte channel: the result of the i-th com.read(1) call, as the
(count, data) pair the transport returns. -/
def Channel : Type := Nat → Nat × List Nat

/-- One iteration of the while-True loop of bload.wait_k (icsp.wait_k is
textually identical): read one byte, append it to data, return data on
the K prompt (0x4B); otherwise decrement timeout and return data only
when the read was empty and timeout is exactly zero. -/
def waitKStep (ch : Channel) (st : Nat × List Nat × Int) :
    (Nat × List Nat × Int) ⊕ List Nat :=
  let i := st.1
  let data := st.2.1
  let timeout := st.2.2
  let count := (ch i).1
  let prompt := (ch i).2
  let data := data ++ prompt
  if prompt = [0x4B] then Sum.inr data
  else
    let timeout := timeout - 1
    if count = 0 ∧ timeout = 0 then Sum.inr data
    else Sum.inl (i + 1, data, timeout)

/-- Iterate waitKStep for at most fuel loop iterations; none means the
loop is still running after fuel iterations.  On return, the second
component is the index of the next unread channel position. -/
def waitKRun (ch : Channel) : Nat → Nat × List Nat × Int → Option (List Nat × Nat)
  | 0, _ => Option.none
  | fuel + 1, st =>
    match waitKStep ch st with
    | Sum.inr d => some (d, st.1 + 1)
    | Sum.inl st' => waitKRun ch fuel st'

/-- Model of bload.wait_k starting at channel position i with
data = b'' and timeout = 3. -/
def wait_k (ch : Channel) (fuel i : Nat) : Option (List Nat × Nat) :=
  waitKRun ch fuel (i, [], 3)

/-- A channel that yields three junk bytes (0x58, 'X') and then times out
(empty reads) forever: no K prompt ever arrives. -/
def badChannel : Channel := fun i => if i < 3 then (1, [0x58]) else (0, [])

/-- Once timeout has gone non-positive and only empty reads remain, the
wait_k loop of bload.py never exits: timeout is decremented on every
iteration but the exit test requires it to be exactly zero. -/
theorem badChannel_stuck :
    ∀ fuel i d t, 3 ≤ i → t ≤ 0 →
      waitKRun badChannel fuel (i, d, t) = Option.none := by
  intro fuel
  induction fuel with
  | zero => intro i d t _ _; rfl
  | succ n ih =>
    intro i d t hi ht
    have hch : badChannel i = (0, []) := by
      simp only [badChannel, if_neg (by omega : ¬ i < 3)]
    have hstep : waitKStep badChannel (i, d, t) = Sum.inl (i + 1, d ++ [], t - 1) := by
      simp only [waitKStep, hch]
      rw [if_neg (by simp), if_neg (by omega)]
    simp only [waitKRun, hstep]
    exact ih (i + 1) (d ++ []) (t - 1) (by omega) (by omega)

/-- Claim C5: the resynchronization loop is not bounded.  On badChannel,
which sends three junk bytes and then stays idle, wait_k never returns,
whatever iteration budget it is given: after the three junk reads the
timeout counter is already below zero and the exit condition
count == 0 and timeout == 0 can never hold again. -/
theorem C5_waitk_diverges : ∀ fuel, wait_k badChannel fuel 0 = Option.none := by
  intro fuel
  match fuel with
  | 0 => rfl
  | 1 => rfl
  | 2 => rfl
  | 3 => rfl
  | (n + 4) =>
    have h : wait_k badChannel (n + 4) 0
        = waitKRun badChannel n (4, [0x58, 0x58, 0x58], -1) := rfl
    rw [h]
    exact badChannel_stuck n 4 _ (-1) (by omega) (by omega)

/-- Model of icsp.MID. -/
def MID : List Nat := [0x00]

/-- Model of icsp.ENH. -/
def ENH : List Nat := [0x01]

/-- The per-device parameter record read by the icsp layer, with fields
named after the dictionary keys the code looks up.  (The shipped
picdevice.py table spells the config-page key conf_page while
icsp.write_config looks up conf_page_num; the field here is the one the
lookup expects.) -/
structure Device where
  family : List Char
  conf_page_num : Nat
  conf_len : Nat
  num_latches : Nat

/-- The method byte chosen from the device family: MID for 'mid',
ENH otherwise. -/
def methodOf (device : Device) : List Nat :=
  if device.family = ['m', 'i', 'd'] then MID else ENH

/-- Frame written by icsp.load_config: send_command(com, b'C\x00\x00'). -/
def load_config_frame : List Nat := [0x43, 0x00, 0x00]

/-- Frame written by icsp.load_program: b'L' + data. -/
def load_program_frame (data : List Nat) : List Nat := 0x4C :: data

/-- Frame written by icsp.load_program_inc: b'M' + data. -/
def load_program_inc_frame (data : List Nat) : List Nat := 0x4D :: data

/-- Frame written by icsp.program: b'P' + method. -/
def program_frame (device : Device) : List Nat := 0x50 :: methodOf device

/-- Frame written by icsp.inc: b'I'. -/
def inc_frame : List Nat := [0x49]

/-- Model of n.to_bytes(2, 'little').  The OverflowError for n >= 2^16 is
not modelled here; call sites pass word counts below 2^16. -/
def to_bytes_2_le (n : Nat) : List Nat := [n % 2 ^ 8, n / 2 ^ 8 % 2 ^ 8]

/-- Frame written by icsp.jump: b'J' + count.to_bytes(2, 'little'). -/
def jump_frame (count : Nat) : List Nat := 0x4A :: to_bytes_2_le count

/-- Model of hex.words: successive 2-character chunks (a trailing odd
chunk has one element). -/
def chunks2 {α : Type} : List α → List (List α)
  | [] => []
  | [a] => [[a]]
  | a :: b :: rest => [a, b] :: chunks2 rest

/-- Model of hex.hex_to_bytes with the default nullval b'\xff': each
2-character chunk '  ' becomes 0xFF, other chunks are parsed as hex.
A trailing 1-character chunk (which raises in Python 3.7+) or a
non-hex chunk gives none. -/
def hex_to_bytes (data : List Char) : Option (List Nat) :=
  (chunks2 data).mapM fun w =>
    if w = [' ', ' '] then some 0xFF
    else if w.length = 2 then parseHex? w else none

/-- Model of Python str.isspace: nonempty and all whitespace. -/
def pyIsspace (s : List Char) : Bool := !s.isEmpty && s.all Char.isWhitespace

/-- The for-loop of icsp.write_program_page over the 4-character words of
the page string: empty words are replaced by 'FFFF'; a program commit
plus increment is issued when the latch group fills (word_count divisible
by num_latches) or at word_count == length, otherwise the word is loaded
with auto-increment.  Returns the frames sent; none models a ValueError
from invalid hex data. -/
def wppLoop (device : Device) (length num_latches : Nat) :
    List Char → Nat → Option (List (List Nat))
  | [], _ => some []
  | c :: cs, word_count => do
    let chunk := c :: cs.take 3
    let chunk := if chunk = [' ', ' ', ' ', ' '] then ['F', 'F', 'F', 'F'] else chunk
    let word ← hex_to_bytes chunk
    let wc := word_count + 1
    let frames :=
      if wc % num_latches = 0 ∨ wc = length then
        [load_program_frame word, program_frame device, inc_frame]
      else
        [load_program_inc_frame word]
    let rest ← wppLoop device length num_latches (cs.drop 3) wc
    pure (frames ++ rest)
termination_by cs _ => cs.length
decreasing_by simp; omega

/-- Model of icsp.write_program_page: an absent (None) or all-whitespace
page is skipped with a jump by the page length; otherwise the size is
checked (RuntimeError = none when short) and the words are streamed
through the latches. -/
def write_program_page (device : Device) (page : Option (List Char))
    (length num_latches : Nat) : Option (List (List Nat)) :=
  match page with
  | Option.none => some [jump_frame length]
  | some p =>
    if pyIsspace p then some [jump_frame length]
    else
      let byte_count := p.length
      if byte_count < length * 4 then Option.none
      else wppLoop device length num_latches p 0

/-- Model of icsp.write_config: the config segment is always loaded
first; an absent config page then just returns, otherwise the page is
written through write_program_page with num_latches = 1.  The firmware
list is indexed Hexfile-style (out of range gives None). -/
def write_config (firmware_list : List (Option (List Char))) (device : Device) :
    Option (List (List Nat)) :=
  match firmware_list[device.conf_page_num]? with
  | some (some p) =>
    (write_program_page device (some p) device.conf_len 1).map
      fun frames => load_config_frame :: frames
  | _ => some [load_config_frame]

/-- Number of program-commit frames (command byte 'P') in a frame list. -/
def countProgram (frames : List (List Nat)) : Nat :=
  frames.countP fun f => f.head? == some 0x50

/-- Number of word-load frames (command bytes 'L' or 'M') in a frame
list. -/
def countLoads (frames : List (List Nat)) : Nat :=
  frames.countP fun f => f.head? == some 0x4C || f.head? == some 0x4D

/-- A 4-character page chunk that write_program_page can send: blank or
valid hexadecimal. -/
def chunkOk (c : List Char) : Bool :=
  (hex_to_bytes (if c = [' ', ' ', ' ', ' '] then ['F', 'F', 'F', 'F'] else c)).isSome

theorem wppLoop_count (device : Device) (len L : Nat) :
    ∀ (k : Nat) (cs : List Char) (wc : Nat), cs.length = 4 * k →
      (∀ c ∈ chunks4 cs, chunkOk c) →
      ∃ frames, wppLoop device len L cs wc = some frames ∧
        countProgram frames =
          (List.range k).countP
            (fun j => decide ((wc + j + 1) % L = 0) || decide (wc + j + 1 = len)) := by
  intro k
  induction k with
  | zero =>
    intro cs wc hlen _
    have : cs = [] := List.eq_nil_of_length_eq_zero (by omega)
    subst this
    exact ⟨[], by rw [wppLoop], rfl⟩
  | succ k ih =>
    intro cs wc hlen hok
    have h4 : ∃ e1 e2 e3 e4 tl, cs = e1 :: e2 :: e3 :: e4 :: tl := by
      rcases cs with _ | ⟨e1, _ | ⟨e2, _ | ⟨e3, _ | ⟨e4, tl⟩⟩⟩⟩
      · exfalso; simp at hlen
      · exfalso; simp at hlen; omega
      · exfalso; simp at hlen; omega
      · exfalso; simp at hlen; omega
      · exact ⟨e1, e2, e3, e4, tl, rfl⟩
    obtain ⟨e1, e2, e3, e4, tl, rfl⟩ := h4
    · have hchunkmem : ([e1, e2, e3, e4] : List Char)
          ∈ chunks4 (e1 :: e2 :: e3 :: e4 :: tl) := by
        rw [chunks4]; exact List.mem_cons_self _ _
      have hok1 := hok _ hchunkmem
      rw [chunkOk] at hok1
      obtain ⟨word, hword⟩ := Option.isSome_iff_exists.mp hok1
      have hlen' : tl.length = 4 * k := by
        simp at hlen ⊢; omega
      have hok' : ∀ c' ∈ chunks4 tl, chunkOk c' := by
        intro c' hc'
        exact hok c' (by rw [chunks4]; exact List.mem_cons_of_mem _ hc')
      obtain ⟨rest, hrest, hcount⟩ := ih tl (wc + 1) hlen' hok'
      have hunfold : wppLoop device len L (e1 :: e2 :: e3 :: e4 :: tl) wc
          = some ((if (wc + 1) % L = 0 ∨ wc + 1 = len then
              [load_program_frame word, program_frame device, inc_frame]
            else [load_program_inc_frame word]) ++ rest) := by
        rw [wppLoop]
        show ((hex_to_bytes (if ([e1, e2, e3, e4] : List Char) = [' ', ' ', ' ', ' ']
            then ['F', 'F', 'F', 'F'] else [e1, e2, e3, e4])) >>= fun word =>
          wppLoop device len L tl (wc + 1) >>= fun rest =>
          pure ((if (wc + 1) % L = 0 ∨ wc + 1 = len then
              [load_program_frame word, program_frame device, inc_frame]
            else [load_program_inc_frame word]) ++ rest)) = _
        rw [hword]
        show (wppLoop device len L tl (wc + 1) >>= fun rest =>
          pure ((if (wc + 1) % L = 0 ∨ wc + 1 = len then
              [load_program_frame word, program_frame device, inc_frame]
            else [load_program_inc_frame word]) ++ rest)) = _
        rw [hrest]
        rfl
      refine ⟨_, hunfold, ?_⟩
      unfold countProgram at hcount ⊢
      rw [List.range_succ_eq_map, List.countP_cons, List.countP_map,
        List.countP_append]
      have hcongr : List.countP
          ((fun j => decide ((wc + j + 1) % L = 0) || decide (wc + j + 1 = len))
            ∘ Nat.succ) (List.range k)
          = List.countP
            (fun j => decide ((wc + 1 + j + 1) % L = 0)
              || decide (wc + 1 + j + 1 = len)) (List.range k) := by
        refine List.countP_congr ?_
        intro a _
        simp only [Function.comp_apply, Nat.succ_eq_add_one]
        have h : wc + (a + 1) + 1 = wc + 1 + a + 1 := by omega
        rw [h]
      rw [hcongr, ← hcount]
      by_cases hcommit : (wc + 1) % L = 0 ∨ wc + 1 = len
      · rw [if_pos hcommit]
        have h1 : List.countP (fun f => f.head? == some 0x50)
            [load_program_frame word, program_frame device, inc_frame] = 1 := by
          simp [List.countP_cons, load_program_frame, program_frame, inc_frame]
        have h2 : (if (decide ((wc + 0 + 1) % L = 0) || decide (wc + 0 + 1 = len))
              = true then 1 else 0) = 1 := by
          rcases hcommit with h | h <;> simp [h]
        rw [h1, h2]
        omega
      · rw [if_neg hcommit]
        have h1 : List.countP (fun f => f.head? == some 0x50)
            [load_program_inc_frame word] = 0 := by
          simp [List.countP_cons, load_program_inc_frame]
        have h2 : (if (decide ((wc + 0 + 1) % L = 0) || decide (wc + 0 + 1 = len))
              = true then 1 else 0) = 0 := by
          rw [not_or] at hcommit
          simp [hcommit.1, hcommit.2]
        rw [h1, h2]
        omega

theorem count_multiples (L : Nat) :
    ∀ n, (List.range n).countP (fun j => decide ((j + 1) % L = 0)) = n / L := by
  intro n
  induction n with
  | zero => simp
  | succ n ih =>
    rw [List.range_succ, List.countP_append, ih, List.countP_cons]
    rw [Nat.succ_div]
    by_cases h : L ∣ n + 1
    · rw [if_pos h]
      have hm : (n + 1) % L = 0 := Nat.mod_eq_zero_of_dvd h
      simp [hm]
    · rw [if_neg h]
      have hm : ¬ (n + 1) % L = 0 := fun hc => h (Nat.dvd_of_mod_eq_zero hc)
      simp [hm]

theorem count_commits (P L : Nat) (hL : 1 ≤ L) :
    (List.range P).countP (fun j => decide ((j + 1) % L = 0) || decide (j + 1 = P))
      = (P + L - 1) / L := by
  match P with
  | 0 =>
    simp
    exact (Nat.div_eq_of_lt (by omega)).symm
  | P + 1 =>
    rw [List.range_succ, List.countP_append, List.countP_cons]
    have h1 : (List.range P).countP
        (fun j => decide ((j + 1) % L = 0) || decide (j + 1 = P + 1))
        = (List.range P).countP (fun j => decide ((j + 1) % L = 0)) := by
      refine List.countP_congr ?_
      intro j hj
      have hj' : j < P := List.mem_range.mp hj
      simp [Nat.ne_of_lt (by omega : j + 1 < P + 1)]
    rw [h1, count_multiples L P]
    have h2 : P + 1 + L - 1 = P + L := by omega
    rw [h2, Nat.add_div_right P (by omega : 0 < L)]
    simp

/-- Claim C2: for latch-group size L >= 1, writing one full P-word page
with write_program_page issues exactly ceil(P/L) = (P + L - 1) / L
program-commit frames; write_config writes the present config page with
num_latches = 1, committing each of its conf_len words individually. -/
theorem C2_latch_batching :
    (∀ (device : Device) (L P : Nat) (p : List Char), 1 ≤ L →
      p.length = 4 * P → (∀ c ∈ chunks4 p, chunkOk c) → pyIsspace p = false →
      ∃ frames, write_program_page device (some p) P L = some frames ∧
        countProgram frames = (P + L - 1) / L)
    ∧ (∀ (device : Device) (fw : List (Option (List Char))) (p : List Char),
      fw[device.conf_page_num]? = some (some p) →
      p.length = 4 * device.conf_len → (∀ c ∈ chunks4 p, chunkOk c) →
      pyIsspace p = false →
      ∃ frames, write_config fw device = some frames ∧
        countProgram frames = device.conf_len) := by
  have main : ∀ (device : Device) (L P : Nat) (p : List Char), 1 ≤ L →
      p.length = 4 * P → (∀ c ∈ chunks4 p, chunkOk c) → pyIsspace p = false →
      ∃ frames, write_program_page device (some p) P L = some frames ∧
        countProgram frames = (P + L - 1) / L := by
    intro device L P p hL hlen hok hsp
    obtain ⟨frames, hfr, hcount⟩ := wppLoop_count device P L P p 0 hlen hok
    refine ⟨frames, ?_, ?_⟩
    · show (if pyIsspace p = true then some [jump_frame P]
        else if p.length < P * 4 then Option.none
        else wppLoop device P L p 0) = some frames
      rw [hsp]
      simp only [Bool.false_eq_true, if_false]
      rw [if_neg (by omega : ¬ p.length < P * 4)]
      exact hfr
    · rw [hcount, ← count_commits P L hL]
      refine List.countP_congr ?_
      intro j _
      simp only [Nat.zero_add]
  refine ⟨main, ?_⟩
  intro device fw p hfw hlen hok hsp
  obtain ⟨frames, hfr, hcount⟩ := main device 1 device.conf_len p (by omega) hlen hok hsp
  refine ⟨load_config_frame :: frames, ?_, ?_⟩
  · unfold write_config
    rw [hfw]
    show (write_program_page device (some p) device.conf_len 1).map
        (fun frames => load_config_frame :: frames) = _
    rw [hfr]
    rfl
  · have hc : countProgram frames = device.conf_len := by
      rw [hcount]; omega
    unfold countProgram at hc ⊢
    rw [List.countP_cons, hc]
    simp [load_config_frame]

/-- Witness for C2: a 2-word page written with latch group 2 commits
once, and a 2-word config page commits twice. -/
theorem C2_latch_batching_witness :
    (∃ frames,
      write_program_page ⟨['m', 'i', 'd'], 0, 2, 2⟩
          (some ['F', 'F', '3', 'F', '0', '0', '3', '0']) 2 2 = some frames ∧
        countProgram frames = (2 + 2 - 1) / 2)
    ∧ (∃ frames,
      write_config [some ['F', 'F', '3', 'F', '0', '0', '3', '0']]
          ⟨['m', 'i', 'd'], 0, 2, 2⟩ = some frames ∧
        countProgram frames = (⟨['m', 'i', 'd'], 0, 2, 2⟩ : Device).conf_len) :=
  ⟨C2_latch_batching.1 ⟨['m', 'i', 'd'], 0, 2, 2⟩ 2 2
      ['F', 'F', '3', 'F', '0', '0', '3', '0'] (by decide) (by decide) (by decide)
      (by decide),
    C2_latch_batching.2 ⟨['m', 'i', 'd'], 0, 2, 2⟩
      [some ['F', 'F', '3', 'F', '0', '0', '3', '0']]
      ['F', 'F', '3', 'F', '0', '0', '3', '0'] (by decide) (by decide) (by decide)
      (by decide)⟩

/-- Model of bload.get_command: command byte, little-endian address,
data, and the checksum of address + data; none propagates the
OverflowError from get_address. -/
def get_command (cmd_code : List Nat) (page_num : Nat) (data : List Nat) :
    Option (List Nat) :=
  (get_address page_num).map fun address =>
    cmd_code ++ address ++ data ++ [calc_checksum (address ++ data)]

/-- Model of intelhex.Page.__bytes__: each word as two little-endian
bytes, absent words as NULLVAL = b'\xff\xff'. -/
def pageBytes (page : List Word) : List Nat :=
  (page.map fun w => match w with
    | some v => to_bytes_2_le v
    | Option.none => [0xFF, 0xFF]).flatten

/-- Model of bload.write_page: a page of the wrong size only prints and
sends nothing; otherwise the framed command is written.  Returns the
frames written. -/
def write_page (cmd_code : List Nat) (page_num : Nat) (page_bytes : List Nat) :
    Option (List (List Nat)) :=
  if page_bytes.length ≠ PAGESIZE then some []
  else (get_command cmd_code page_num page_bytes).map fun cmd => [cmd]

/-- Model of bload.erase_program_page: send the framed 'E' command. -/
def erase_program_page (page_num : Nat) : Option (List (List Nat)) :=
  (get_command [0x45] page_num []).map fun cmd => [cmd]

/-- Model of bload.write_pages over a channel script.  For each page
number: an absent source page is erased (command 'W' sends the page
erase) or overwritten with an all-0xFF page (the other commands); a
present page is written as bytes(page).  Then the K prompt is awaited;
a non-K prompt makes the function return at once, sending nothing for
the remaining pages.  The value is the final channel position and the
frames written; none models an uncaught OverflowError or a wait_k call
still looping when its fuel runs out. -/
def write_pages (ch : Channel) (fuel : Nat) (cmd : List Nat)
    (pages : List (Option (List Word))) :
    List Nat → Nat → Option (Nat × List (List Nat))
  | [], i => some (i, [])
  | page_num :: rest, i =>
    let page := if page_num < pages.length then pages.getD page_num Option.none
                else Option.none
    let framesOpt : Option (List (List Nat)) :=
      match page with
      | Option.none =>
        if cmd = [0x57] then erase_program_page page_num
        else write_page cmd page_num (List.replicate PAGESIZE 0xFF)
      | some pg => write_page cmd page_num (pageBytes pg)
    framesOpt.bind fun frames =>
      match wait_k ch fuel i with
      | Option.none => Option.none
      | some (prompt, i') =>
        if prompt ≠ [0x4B] then some (i', frames)
        else (write_pages ch fuel cmd pages rest i').bind fun x =>
          some (x.1, frames ++ x.2)

/-- Model of Python ord on a bytes value: exactly one byte, otherwise a
TypeError (none). -/
def ord? (b : List Nat) : Option Nat :=
  match b with
  | [x] => some x
  | _ => Option.none

/-- The retry loop of bload.read_page, counting the remaining attempts:
an attempt fails on the b'CK' error marker, on a short page read, or on
a response-checksum mismatch; running out of attempts returns b''.
A missing checksum byte raises (ord of empty bytes), modelled as none.
The value carries the data and the next channel position. -/
def read_page_loop (ch : Channel) (cmd : List Nat) (page_num : Nat) :
    Nat → Nat → Option (List Nat × Nat)
  | 0, i => some ([], i)
  | retry + 1, i =>
    let count := (ch i).1
    let data := (ch i).2
    if data = [0x43, 0x4B] then read_page_loop ch cmd page_num retry (i + 1)
    else if count ≠ PAGESIZE then read_page_loop ch cmd page_num retry (i + 1)
    else
      match ord? (ch (i + 1)).2 with
      | Option.none => Option.none
      | some c =>
        if c ≠ calc_checksum data then read_page_loop ch cmd page_num retry (i + 2)
        else some (data, i + 2)

/-- Model of bload.read_page: five read attempts. -/
def read_page (ch : Channel) (cmd : List Nat) (page_num : Nat) (i : Nat) :
    Option (List Nat × Nat) :=
  read_page_loop ch cmd page_num 5 i

/-- One failing read_page attempt starting at channel position i and
leaving the channel at position i': the error marker b'CK', a short
read, or a present but mismatched checksum byte. -/
def Fails1 (ch : Channel) (i i' : Nat) : Prop :=
  ((ch i).2 = [0x43, 0x4B] ∧ i' = i + 1)
  ∨ ((ch i).2 ≠ [0x43, 0x4B] ∧ (ch i).1 ≠ PAGESIZE ∧ i' = i + 1)
  ∨ ((ch i).2 ≠ [0x43, 0x4B] ∧ (ch i).1 = PAGESIZE
      ∧ (∃ c, (ch (i + 1)).2 = [c] ∧ c ≠ calc_checksum (ch i).2) ∧ i' = i + 2)

/-- n consecutive failing attempts from channel position i to i'. -/
def FailsN (ch : Channel) : Nat → Nat → Nat → Prop
  | 0, i, i' => i' = i
  | n + 1, i, i' => ∃ j, Fails1 ch i j ∧ FailsN ch n j i'

/-- A successful read_page attempt at channel position i returning
data: full-length page, no error marker, matching checksum byte. -/
def SucceedsAt (ch : Channel) (i : Nat) (data : List Nat) : Prop :=
  (ch i).2 = data ∧ data ≠ [0x43, 0x4B] ∧ (ch i).1 = PAGESIZE
  ∧ (ch (i + 1)).2 = [calc_checksum data]

theorem read_page_loop_fail_step (ch : Channel) (cmd : List Nat) (page_num : Nat)
    (i j : Nat) (h : Fails1 ch i j) :
    ∀ r, read_page_loop ch cmd page_num (r + 1) i = read_page_loop ch cmd page_num r j := by
  intro r
  rcases h with ⟨hck, rfl⟩ | ⟨hck, hshort, rfl⟩ | ⟨hck, hlen, ⟨c, hc, hne⟩, rfl⟩
  · simp only [read_page_loop]
    rw [if_pos hck]
  · simp only [read_page_loop]
    rw [if_neg hck, if_pos hshort]
  · simp only [read_page_loop]
    rw [if_neg hck, if_neg (fun hc => hc hlen), hc]
    show (match ord? [c] with
      | Option.none => Option.none
      | some c =>
        if c ≠ calc_checksum (ch i).2 then read_page_loop ch cmd page_num r (i + 2)
        else some ((ch i).2, i + 2)) = _
    rw [show ord? [c] = some c from rfl]
    show (if c ≠ calc_checksum (ch i).2 then read_page_loop ch cmd page_num r (i + 2)
      else some ((ch i).2, i + 2)) = _
    rw [if_pos hne]

theorem read_page_loop_failsN (ch : Channel) (cmd : List Nat) (page_num : Nat) :
    ∀ n i i', FailsN ch n i i' →
      ∀ m, read_page_loop ch cmd page_num (n + m) i = read_page_loop ch cmd page_num m i' := by
  intro n
  induction n with
  | zero =>
    intro i i' h m
    rw [show FailsN ch 0 i i' = (i' = i) from rfl] at h
    rw [h, Nat.zero_add]
  | succ n ih =>
    intro i i' h m
    obtain ⟨j, h1, hn⟩ := h
    have : n + 1 + m = (n + m) + 1 := by omega
    rw [this, read_page_loop_fail_step ch cmd page_num i j h1 (n + m)]
    exact ih j i' hn m

/-- Claim C4: a failed exchange (b'CK' marker, short page, or checksum
mismatch) is retried up to the fixed budget of 5 attempts, after which
read_page returns the empty result; a success within the budget returns
the page data; and a page write whose awaited prompt is not b'K' makes
write_pages return after that page, exactly as if the remaining page
list were empty. -/
theorem C4_retry_and_stop :
    (∀ (ch : Channel) (i i' : Nat), FailsN ch 5 i i' →
      ∀ cmd page_num, read_page ch cmd page_num i = some ([], i'))
    ∧ (∀ (ch : Channel) (k i i' : Nat) (data : List Nat), k < 5 →
      FailsN ch k i i' → SucceedsAt ch i' data →
      ∀ cmd page_num, read_page ch cmd page_num i = some (data, i' + 2))
    ∧ (∀ (ch : Channel) (fuel : Nat) (cmd : List Nat)
        (pages : List (Option (List Word))) (page_num : Nat) (rest : List Nat)
        (i i2 : Nat) (prompt : List Nat),
        wait_k ch fuel i = some (prompt, i2) → prompt ≠ [0x4B] →
        write_pages ch fuel cmd pages (page_num :: rest) i
          = write_pages ch fuel cmd pages [page_num] i) := by
  refine ⟨?_, ?_, ?_⟩
  · intro ch i i' h cmd page_num
    have := read_page_loop_failsN ch cmd page_num 5 i i' h 0
    rw [read_page, this]
    rfl
  · intro ch k i i' data hk h hs cmd page_num
    obtain ⟨hdata, hck, hlen, hcsum⟩ := hs
    have hsplit : (5 : Nat) = k + (5 - k) := by omega
    rw [read_page, hsplit, read_page_loop_failsN ch cmd page_num k i i' h (5 - k)]
    obtain ⟨r, hr⟩ : ∃ r, 5 - k = r + 1 := ⟨4 - k, by omega⟩
    rw [hr, read_page_loop]
    rw [if_neg (by rw [hdata]; simpa using hck), if_neg (by simp [hlen]), hcsum]
    show (match ord? [calc_checksum data] with
      | Option.none => Option.none
      | some c =>
        if c ≠ calc_checksum (ch i').2 then read_page_loop ch cmd page_num r (i' + 2)
        else some ((ch i').2, i' + 2)) = _
    rw [ord?]
    simp only
    rw [if_neg (by rw [hdata]; simp), hdata]
  · intro ch fuel cmd pages page_num rest i i2 prompt hw hp
    simp only [write_pages]
    refine congrArg (Option.bind _) (funext fun frames => ?_)
    rw [hw]
    simp [hp]

/-- Witness for C4: a channel that always answers b'CK' fails five
times and read_page returns b''; a channel that answers a valid 64-byte
page at once succeeds; a silent channel makes wait_k time out with a
non-K prompt and write_pages for pages [0, 1] equals write_pages for
page [0] alone. -/
theorem C4_retry_and_stop_witness :
    (read_page (fun _ => (2, [0x43, 0x4B])) [0x52] 0 0 = some ([], 5))
    ∧ (read_page (fun i => if i = 0 then (64, List.replicate 64 0x11)
        else (1, [calc_checksum (List.replicate 64 0x11)])) [0x52] 0 0
        = some (List.replicate 64 0x11, 2))
    ∧ (write_pages (fun _ => (0, [])) 3 [0x57] [] [0, 1] 0
        = write_pages (fun _ => (0, [])) 3 [0x57] [] [0] 0) := by
  refine ⟨?_, ?_, ?_⟩
  · exact C4_retry_and_stop.1 (fun _ => (2, [0x43, 0x4B])) 0 5
      ⟨1, Or.inl ⟨rfl, rfl⟩, 2, Or.inl ⟨rfl, rfl⟩, 3, Or.inl ⟨rfl, rfl⟩,
        4, Or.inl ⟨rfl, rfl⟩, 5, Or.inl ⟨rfl, rfl⟩, rfl⟩ [0x52] 0
  · exact C4_retry_and_stop.2.1
      (fun i => if i = 0 then (64, List.replicate 64 0x11)
        else (1, [calc_checksum (List.replicate 64 0x11)]))
      0 0 0 (List.replicate 64 0x11) (by omega) rfl
      ⟨rfl, by decide, rfl, rfl⟩ [0x52] 0
  · exact C4_retry_and_stop.2.2 (fun _ => (0, [])) 3 [0x57] [] 0 [1] 0 3 []
      (by decide) (by decide)

/-- Claim C3: a wholly absent source page transmits no data words.  In
the ICSP engine the page is skipped with a jump by the page length (and
the jump frame contains no load or program command); in the legacy
BLoad path, write_pages with the program command 'W' sends a page-erase
frame and with the data command 'D' writes an all-0xFF page to force
erasure. -/
theorem C3_absent_page_skip :
    (∀ (device : Device) (P L : Nat),
      write_program_page device Option.none P L = some [jump_frame P])
    ∧ (∀ (device : Device) (p : List Char) (P L : Nat), pyIsspace p = true →
      write_program_page device (some p) P L = some [jump_frame P])
    ∧ (∀ P, countProgram [jump_frame P] = 0 ∧ countLoads [jump_frame P] = 0)
    ∧ (∀ (ch : Channel) (fuel : Nat) (pages : List (Option (List Word)))
        (n i : Nat), 1 ≤ fuel → ch i = (1, [0x4B]) →
        n * PAGESIZE / 2 < 2 ^ 16 →
        (if n < pages.length then pages.getD n Option.none else Option.none)
          = Option.none →
        ∃ addr, get_address n = some addr
          ∧ write_pages ch fuel [0x57] pages [n] i
            = some (i + 1, [[0x45] ++ addr ++ [calc_checksum addr]])
          ∧ write_pages ch fuel [0x44] pages [n] i
            = some (i + 1, [[0x44] ++ addr ++ List.replicate PAGESIZE 0xFF
                ++ [calc_checksum (addr ++ List.replicate PAGESIZE 0xFF)]])) := by
  refine ⟨fun device P L => rfl, ?_, ?_, ?_⟩
  · intro device p P L hsp
    show (if pyIsspace p = true then some [jump_frame P]
      else if p.length < P * 4 then Option.none
      else wppLoop device P L p 0) = some [jump_frame P]
    rw [hsp]
    simp
  · intro P
    constructor <;> rfl
  · intro ch fuel pages n i hfuel hch hn habsent
    have hwait : wait_k ch fuel i = some ([0x4B], i + 1) := by
      obtain ⟨f, rfl⟩ : ∃ f, fuel = f + 1 := ⟨fuel - 1, by omega⟩
      rw [wait_k, waitKRun]
      have hstep : waitKStep ch (i, [], 3) = Sum.inr [0x4B] := by
        simp [waitKStep, hch]
      rw [hstep]
    have haddr : get_address n
        = some [n * PAGESIZE / 2 % 2 ^ 8, n * PAGESIZE / 2 / 2 ^ 8] := by
      unfold get_address
      simp only
      rw [if_pos hn]
    have herase : erase_program_page n
        = some [[0x45] ++ [n * PAGESIZE / 2 % 2 ^ 8, n * PAGESIZE / 2 / 2 ^ 8]
            ++ [calc_checksum [n * PAGESIZE / 2 % 2 ^ 8, n * PAGESIZE / 2 / 2 ^ 8]]] := by
      unfold erase_program_page get_command
      rw [haddr]
      rfl
    have hwrite : write_page [0x44] n (List.replicate PAGESIZE 0xFF)
        = some [[0x44] ++ [n * PAGESIZE / 2 % 2 ^ 8, n * PAGESIZE / 2 / 2 ^ 8]
            ++ List.replicate PAGESIZE 0xFF
            ++ [calc_checksum ([n * PAGESIZE / 2 % 2 ^ 8, n * PAGESIZE / 2 / 2 ^ 8]
                ++ List.replicate PAGESIZE 0xFF)]] := by
      unfold write_page get_command
      rw [if_neg (by simp), haddr]
      simp [List.append_assoc]
    refine ⟨[n * PAGESIZE / 2 % 2 ^ 8, n * PAGESIZE / 2 / 2 ^ 8], haddr, ?_, ?_⟩
    · simp only [write_pages]
      rw [habsent]
      simp [herase, hwait]
    · simp only [write_pages]
      rw [habsent]
      simp [hwrite, hwait]

/-- Witness for C3: the whitespace-page jump at a 16-word length, and
the two BLoad absent-page frames for page 0 over an immediate-K
channel. -/
theorem C3_absent_page_skip_witness :
    (write_program_page ⟨['m', 'i', 'd'], 0, 2, 2⟩ (some [' ', ' ', ' ', ' ']) 1 1
      = some [jump_frame 1])
    ∧ ∃ addr, get_address 0 = some addr
      ∧ write_pages (fun _ => (1, [0x4B])) 1 [0x57] [] [0] 0
        = some (1, [[0x45] ++ addr ++ [calc_checksum addr]])
      ∧ write_pages (fun _ => (1, [0x4B])) 1 [0x44] [] [0] 0
        = some (1, [[0x44] ++ addr ++ List.replicate PAGESIZE 0xFF
            ++ [calc_checksum (addr ++ List.replicate PAGESIZE 0xFF)]]) :=
  ⟨C3_absent_page_skip.2.1 ⟨['m', 'i', 'd'], 0, 2, 2⟩ [' ', ' ', ' ', ' '] 1 1
      (by decide),
    C3_absent_page_skip.2.2.2 (fun _ => (1, [0x4B])) 1 [] 0 0 (by omega) rfl
      (by decide) (by decide)⟩

/-- mock.CMD_LOAD_CONFIG. -/
def CMD_LOAD_CONFIG : List Nat := [0x00]

/-- mock.CMD_LOAD_PGM. -/
def CMD_LOAD_PGM : List Nat := [0x02]

/-- mock.CMD_LOAD_DATA. -/
def CMD_LOAD_DATA : List Nat := [0x03]

/-- mock.CMD_READ_PGM. -/
def CMD_READ_PGM : List Nat := [0x04]

/-- mock.CMD_READ_DATA. -/
def CMD_READ_DATA : List Nat := [0x05]

/-- mock.CMD_INC. -/
def CMD_INC : List Nat := [0x06]

/-- mock.CMD_PROGRAM_INT. -/
def CMD_PROGRAM_INT : List Nat := [0x08]

/-- mock.CMD_PROGRAM_EXT. -/
def CMD_PROGRAM_EXT : List Nat := [0x18]

/-- mock.CMD_PROGRAM_END. -/
def CMD_PROGRAM_END : List Nat := [0x0A]

/-- mock.CMD_ERASE_PGM. -/
def CMD_ERASE_PGM : List Nat := [0x09]

/-- mock.CMD_ERASE_DATA. -/
def CMD_ERASE_DATA : List Nat := [0x0B]

/-- mock.CMD_RESET_ADDRESS. -/
def CMD_RESET_ADDRESS : List Nat := [0x16]

/-- The dynamically typed mock.Target.word: an int after send_arg, a
bytes value after a read (initially b''); latch slots hold the same
values. -/
inductive MWord where
  | ofInt (n : Nat)
  | ofBytes (b : List Nat)
  deriving DecidableEq, Repr

/-- Model of intelhex.Hexfile.__getitem__: an out-of-range index gives
None (the IndexError is caught). -/
def hexGetitem (hf : List (Option (List Word))) (i : Nat) : Option (List Word) :=
  (hf[i]?).join

/-- Model of intelhex.Page.__init__ on the argument forms that
Hexfile.__setitem__ passes: None gives a fresh blank page, an existing
page is copied; _pad then fills up to PAGELEN slots. -/
def pageInit (v : Option (List Word)) : List Word :=
  match v with
  | Option.none => pageNew
  | some l => pagePad l

/-- Model of intelhex.Hexfile.__setitem__: extend the page list with
None entries up to page_num, then store Page(page). -/
def hexSetitem (hf : List (Option (List Word))) (page_num : Nat)
    (page : Option (List Word)) : List (Option (List Word)) :=
  let short := page_num + 1 - hf.length
  let hf := hf ++ List.replicate short Option.none
  hf.set page_num (some (pageInit page))

/-- State of the mock.Target simulator; the device dictionary fields it
reads (num_latches, max_page, conf_page, min_data, max_data) are
inlined. -/
structure MTarget where
  firmware : List (Option (List Word))
  word_address : Nat
  cmd : Option (List Nat)
  word : MWord
  latch : List (Option MWord)
  num_latches : Nat
  max_page : Nat
  conf_page : Nat
  min_data : Nat
  max_data : Nat

/-- Model of Target._clear_latches. -/
def clear_latches (t : MTarget) : MTarget :=
  { t with latch := List.replicate t.num_latches Option.none }

/-- Model of Target._load_latch: bn = word_address % num_latches and
latch[bn] = word.  (num_latches = 0 would raise ZeroDivisionError; the
device table values are 4..32, and bn is then in range.) -/
def load_latch (t : MTarget) : MTarget :=
  let bn := t.word_address % t.num_latches
  { t with latch := t.latch.set bn (some t.word) }

/-- Model of Target._read_word: the synthesized chip id at 0x8006,
otherwise the addressed firmware word (blank 0xFFFF for an absent
page), with the high byte masked.  The final two-byte slice is always
full here since byte_num < PAGEBYTES; a short slice would raise in
Python. -/
def read_word (t : MTarget) (msb_mask : Nat) : MTarget :=
  if t.word_address = 0x8006 then
    let chip_id := (0b100111000 <<< 5) + 0b00101
    { t with word := .ofBytes (to_bytes_2_le chip_id) }
  else
    let page_num := t.word_address / PAGELEN
    let word_num := t.word_address % PAGELEN
    let byte_num := word_num * 2
    let w :=
      match hexGetitem t.firmware page_num with
      | some page => ((pageBytes page).drop byte_num).take 2
      | Option.none => [0xFF, 0xFF]
    let w2 :=
      match w with
      | [a, b] => [a, b &&& msb_mask]
      | other => other
    { t with word := .ofBytes w2 }

/-- Model of Target._program: compute the latch-group base offset,
create the page if absent, copy every filled latch slot into the page
(an int value through Page.__setitem__, a bytes value raising
TypeError), then clear the latches. -/
def program_commit (t : MTarget) : Except PyErr MTarget :=
  let page_num := t.word_address / PAGELEN
  let page_offset := t.word_address % PAGELEN
  let word_offset := page_offset / t.num_latches * t.num_latches
  let fw0 := if (hexGetitem t.firmware page_num).isNone
             then hexSetitem t.firmware page_num Option.none
             else t.firmware
  let folded : Except PyErr (List (Option (List Word))) :=
    (List.range t.num_latches).foldlM (fun fw bn =>
      match t.latch.getD bn Option.none with
      | Option.none => .ok fw
      | some v =>
        match hexGetitem fw page_num with
        | Option.none => .error .typeError
        | some pg =>
          match v with
          | .ofBytes _ => .error .typeError
          | .ofInt w =>
            (pageSetitem pg (.idx (word_offset + bn)) (.int w)).map fun pg2 =>
              fw.set page_num (some pg2)) fw0
  folded.map fun fw => clear_latches { t with firmware := fw }

/-- Model of Target._erase_pgm: every program page is replaced by a
blank page, then the four user-id words of the config page are
blanked; a missing config page makes the subscript raise. -/
def erase_pgm (t : MTarget) : Except PyErr MTarget :=
  let fw := (List.range (t.max_page + 1)).foldl
    (fun fw pn => hexSetitem fw pn Option.none) t.firmware
  match hexGetitem fw t.conf_page with
  | Option.none => .error .typeError
  | some pg =>
    (do
      let pg1 ← pageSetitem pg (.idx 0) .noneVal
      let pg2 ← pageSetitem pg1 (.idx 1) .noneVal
      let pg3 ← pageSetitem pg2 (.idx 2) .noneVal
      pageSetitem pg3 (.idx 3) .noneVal).map fun pg4 =>
        { t with firmware := fw.set t.conf_page (some pg4) }

/-- Model of Target._erase_data: blank every data page. -/
def erase_data (t : MTarget) : MTarget :=
  let fw := (List.range (t.max_data + 1 - t.min_data)).foldl
    (fun fw k => hexSetitem fw (t.min_data + k) Option.none) t.firmware
  { t with firmware := fw }

/-- Model of Target._run: dispatch the pending command exactly as the
if/elif chain does, clear cmd on success; an unhandled command (which
includes CMD_PROGRAM_EXT and CMD_PROGRAM_END, dispatched by send_cmd
but absent from the chain) raises RuntimeError. -/
def target_run (t : MTarget) : Except PyErr MTarget :=
  let finish := fun (t2 : MTarget) => Except.ok { t2 with cmd := Option.none }
  match t.cmd with
  | Option.none => .error .runtimeError
  | some c =>
    if c = CMD_LOAD_CONFIG then finish (load_latch { t with word_address := 0x8000 })
    else if c = CMD_LOAD_PGM then finish (load_latch t)
    else if c = CMD_LOAD_DATA then
      let t2 := if t.word_address < 0xF000 then { t with word_address := 0xF000 } else t
      finish (load_latch t2)
    else if c = CMD_READ_PGM then finish (read_word t 0x3F)
    else if c = CMD_READ_DATA then
      let t2 := if t.word_address < 0xF000 then { t with word_address := 0xF000 } else t
      finish (read_word t2 0x00)
    else if c = CMD_PROGRAM_INT then (program_commit t).bind finish
    else if c = CMD_ERASE_PGM then (erase_pgm t).bind finish
    else if c = CMD_ERASE_DATA then finish (erase_data t)
    else if c = CMD_INC then finish { t with word_address := t.word_address + 1 }
    else if c = CMD_RESET_ADDRESS then finish { t with word_address := 0 }
    else .error .runtimeError

/-- Model of mock.Target.send_cmd: a pending command is a protocol
violation (ValueError); otherwise the command byte is stored and, if it
takes no argument word, dispatched at once. -/
def send_cmd (t : MTarget) (c : List Nat) : Except PyErr MTarget :=
  if t.cmd.isSome then .error .valueError
  else
    let t2 := { t with cmd := some c }
    if c = CMD_READ_PGM ∨ c = CMD_READ_DATA ∨ c = CMD_INC
        ∨ c = CMD_ERASE_PGM ∨ c = CMD_ERASE_DATA ∨ c = CMD_RESET_ADDRESS
        ∨ c = CMD_PROGRAM_INT ∨ c = CMD_PROGRAM_EXT ∨ c = CMD_PROGRAM_END then
      target_run t2
    else .ok t2

/-- Model of mock.Target.send_arg: store the argument word and dispatch
the pending command. -/
def send_arg (t : MTarget) (word : Nat) : Except PyErr MTarget :=
  target_run { t with word := .ofInt word }

/-- Claim C9: in every simulator state with a command pending its
argument word, sending any further command byte raises ValueError; no
state results, so the pending command is neither replaced nor
ignored. -/
theorem C9_send_cmd_pending_rejected :
    ∀ (t : MTarget), t.cmd.isSome → ∀ b, send_cmd t b = .error .valueError := by
  intro t h b
  unfold send_cmd
  rw [if_pos h]

/-- Witness for C9: a target with CMD_LOAD_PGM pending rejects a
CMD_INC command byte. -/
theorem C9_send_cmd_pending_rejected_witness :
    send_cmd ⟨[], 0, some CMD_LOAD_PGM, .ofBytes [], [Option.none], 1, 0, 0, 0, 0⟩
      CMD_INC = .error .valueError :=
  C9_send_cmd_pending_rejected
    ⟨[], 0, some CMD_LOAD_PGM, .ofBytes [], [Option.none], 1, 0, 0, 0, 0⟩
    (by rfl) CMD_INC

/-- The chip-id keys of the picdevice.PARAM table. -/
def PARAM_KEYS : List Nat :=
  [0x04E, 0x138, 0x140, 0x3049, 0x304B, 0x3048, 0x304A, 0x13C, 0x13D, 0x0DC, 0x0A4]

/-- The target-affecting calls the two orchestrators make, used to model
their control flow. -/
inductive Action where
  | getInfo
  | readConfig
  | readProgram
  | readData
  | readFirmware
  | pulseDtr
  | release
  | loadConfig
  | eraseProgram
  | eraseData
  | resetAddress
  | writeProgramPages
  | writeDataPages
  | writeConfig
  | writePagesW
  | writePagesD
  deriving DecidableEq, Repr

/-- Whether an action erases or writes target memory. -/
def destructive : Action → Bool
  | .eraseProgram | .eraseData | .writeProgramPages | .writeDataPages
  | .writeConfig | .writePagesW | .writePagesD => true
  | _ => false

/-- Model of the kt150.main control flow from the device-table lookup on
(kt150.py lines 292 to the end): an unknown chip id prints, releases the
target and exits before any other target command; a known id takes the
read path, the write path (erase, write, verify), or, for the id-only
mode, just releases. -/
def kt150_main_actions (device_id : Nat) (read write : Bool) : List Action :=
  if device_id ∉ PARAM_KEYS then [.release]
  else if read then [.resetAddress, .readFirmware, .release]
  else if write then
    [.loadConfig, .eraseProgram, .eraseData, .resetAddress,
     .writeProgramPages, .writeDataPages, .resetAddress, .writeConfig,
     .resetAddress, .readFirmware, .release]
  else [.release]

/-- Model of the chip-id decode loop of pyload.program (lines 314-327):
shifts 0, 4 and 5 are tried in order and the first shifted id found in
the device table wins; none matching means the loop falls through to
the exit branch. -/
def pyload_decode (chip_id : Nat) : Option Nat :=
  if chip_id >>> 0 ∈ PARAM_KEYS then some (chip_id >>> 0)
  else if chip_id >>> 4 ∈ PARAM_KEYS then some (chip_id >>> 4)
  else if chip_id >>> 5 ∈ PARAM_KEYS then some (chip_id >>> 5)
  else Option.none

/-- Model of the pyload.program control flow: the info record and config
page are read first, then the id is decoded; an unknown id pulses DTR
(reset) and exits, issuing no further command.  A known id reads the
existing firmware and, unless in read-only mode, runs the write/verify
machinery whose write_pages calls are the destructive steps (the
verify-retry loop and the conditional page-zero write are collapsed to
one pass; order is preserved). -/
def pyload_program_actions (chip_id : Nat) (read fast : Bool) : List Action :=
  [.getInfo, .readConfig] ++
  match pyload_decode chip_id with
  | Option.none => [.pulseDtr]
  | some _ =>
    (if fast then [.readProgram] else [.readProgram, .readData, .readConfig]) ++
    (if read then [] else
      [.writePagesW, .writePagesD]
      ++ (if fast then [] else [.readProgram, .readData])
      ++ [.writePagesW]) ++
    [.pulseDtr]

/-- Claim C6: an unknown chip id terminates the run before any erase or
write command: in kt150.main the action list is just the release, and
in pyload.program just the reads before identification plus the reset
pulse; neither contains a destructive action. -/
theorem C6_unknown_id_no_destructive :
    (∀ (device_id : Nat) (r w : Bool), device_id ∉ PARAM_KEYS →
      ∀ a ∈ kt150_main_actions device_id r w, destructive a = false)
    ∧ (∀ (chip_id : Nat) (r f : Bool), pyload_decode chip_id = Option.none →
      ∀ a ∈ pyload_program_actions chip_id r f, destructive a = false) := by
  constructor
  · intro device_id r w h a ha
    rw [kt150_main_actions, if_pos h] at ha
    rw [List.mem_singleton] at ha
    subst ha
    rfl
  · intro chip_id r f h a ha
    rw [pyload_program_actions, h] at ha
    simp only [List.mem_append, List.mem_cons, List.mem_singleton,
      List.not_mem_nil, or_false] at ha
    rcases ha with (rfl | rfl) | rfl <;> rfl

/-- Witness for C6: chip id 0 is not in the device table; neither run
reaches a destructive action. -/
theorem C6_unknown_id_no_destructive_witness :
    (∀ a ∈ kt150_main_actions 0 false true, destructive a = false)
    ∧ (∀ a ∈ pyload_program_actions 0 false false, destructive a = false) :=
  ⟨C6_unknown_id_no_destructive.1 0 false true (by decide),
    C6_unknown_id_no_destructive.2 0 false false (by decide)⟩

/-- Uppercase hexadecimal digit for 0..15. -/
def hexDigitU (n : Nat) : Char :=
  if n < 10 then Char.ofNat (48 + n) else Char.ofNat (55 + n)

/-- Minimal uppercase hexadecimal representation (Python '%X'). -/
def toHexU (n : Nat) : List Char :=
  if n < 16 then [hexDigitU n]
  else toHexU (n / 16) ++ [hexDigitU (n % 16)]
termination_by n
decreasing_by exact Nat.div_lt_self (by omega) (by omega)

/-- Python '%02X': pad the hexadecimal form to at least two digits. -/
def fmt02X (n : Nat) : List Char :=
  let s := toHexU n
  List.replicate (2 - s.length) '0' ++ s

/-- Python '%04X': pad the hexadecimal form to at least four digits. -/
def fmt04X (n : Nat) : List Char :=
  let s := toHexU n
  List.replicate (4 - s.length) '0' ++ s

/-- Model of (~calcsum + 1) & 0xFF on a non-negative Python int: the
two's complement of the low byte. -/
def twosComp (c : Nat) : Nat := ((-(c : Int)) % 256).toNat

/-- Model of intelhex.hex_to_sum: sum(binascii.a2b_hex(s)); an odd
length or a non-hexadecimal character raises (none). -/
def hex_to_sum (l : List Char) : Option Nat :=
  ((chunks2 l).mapM fun w =>
    if w.length = 2 then parseHex? w else Option.none).map List.sum

/-- The fmt helper of Hexfile.write: LSB then MSB, two hex digits
each. -/
def fmt (w : Nat) : List Char := fmt02X (w % 0x100) ++ fmt02X (w / 0x100)

/-- The data string of one run: ''.join(fmt(w) for w in run); an absent
word in the run would make fmt raise (none). -/
def joinFmt (run : List Word) : Option (List Char) :=
  (run.mapM fun w => Option.map fmt w).map List.flatten

/-- Model of the block_chunks generator inside Hexfile.write: scan the
block and yield (space_len, run) for each maximal run of non-absent
words, where space_len counts the absent words between the previous
run's end and this run's start.  The generator's space/start indices
and its block[start:i] slices are represented here by the gap counter
and the accumulated run (some run = space_flag False). -/
def bcGo : List Word → Nat → Option (List Word) → List (Nat × List Word)
  | [], _, Option.none => []
  | [], gap, some run => [(gap, run)]
  | w :: rest, gap, Option.none =>
    match w with
    | Option.none => bcGo rest (gap + 1) Option.none
    | some v => bcGo rest gap (some [some v])
  | w :: rest, gap, some run =>
    match w with
    | some v => bcGo rest gap (some (run ++ [some v]))
    | Option.none => (gap, run) :: bcGo rest 1 Option.none

/-- The runs of a block, with initial state space = start = 0,
space_flag = True. -/
def block_chunks (block : List Word) : List (Nat × List Word) :=
  bcGo block 0 Option.none

/-- The extended-address record line ':02000004' + data + checksum. -/
def extLine (base_page : Nat) : Option (List Char) :=
  let data := fmt04X base_page
  (hex_to_sum data).map fun s =>
    let calcsum := twosComp (2 + 0 + 4 + s)
    ':' :: ("02000004".toList ++ data ++ fmt02X calcsum)

/-- A data record line ':%02X%04X%02X%s%02X' with record type 0x00. -/
def dataLine (byte_count addr : Nat) (data : List Char) : Option (List Char) :=
  (hex_to_sum data).map fun s =>
    let calcsum := twosComp (byte_count + addr / 0x100 + (addr &&& 0xFF) + s)
    ':' :: (fmt02X byte_count ++ fmt04X addr ++ fmt02X 0 ++ data ++ fmt02X calcsum)

/-- The end-of-file record line. -/
def eofLine : List Char := ":00000001FF".toList

/-- The record-emitting loop over one block's runs in Hexfile.write:
skip the space, emit the record, advance the address by the byte
count. -/
def writeBlock (addr : Nat) : List (Nat × List Word) → Option (List (List Char))
  | [] => some []
  | (space_len, run) :: rest => do
    let addr := addr + space_len * 2
    let data ← joinFmt run
    let byte_count := data.length / 2
    let line ← dataLine byte_count addr data
    let restLines ← writeBlock (addr + byte_count) rest
    pure (line :: restLines)

/-- One page of Hexfile.write: blocks of PAGELEN // 4 = 8 words at word
offsets range(0, PAGELEN, 8); the block address keeps 16 bits via
page_num % 0x400. -/
def writePage (page_num : Nat) (page : List Word) : Option (List (List Char)) :=
  (([0, 8, 16, 24] : List Nat).mapM fun word_offset =>
    let addr := page_num % 0x400 * PAGEBYTES + word_offset * 2
    let block := (page.drop word_offset).take (PAGELEN / 4)
    writeBlock addr (block_chunks block)).map List.flatten

/-- The page loop of Hexfile.write with the rolling base_page state
(initially -1): an extended-address record is emitted whenever the
page's 64K block exceeds the current base_page; absent pages emit no
data records. -/
def writeLoop (base_page : Int) (page_num : Nat) :
    List (Option (List Word)) → Option (List (List Char))
  | [] => some []
  | pg :: rest => do
    let need := base_page < ((page_num / 0x400 : Nat) : Int)
    let extPart ← if need then (extLine (page_num / 0x400)).map fun l => [l]
                  else some []
    let base_page2 := if need then ((page_num / 0x400 : Nat) : Int) else base_page
    let pagePart ← match pg with
      | Option.none => some []
      | some page => writePage page_num page
    let restLines ← writeLoop base_page2 (page_num + 1) rest
    pure (extPart ++ pagePart ++ restLines)

/-- Model of intelhex.Hexfile.write: the page loop followed by the
end-of-file record.  The file is the list of its lines (each written
with a CRLF terminator). -/
def write (page_list : List (Option (List Word))) : Option (List (List Char)) :=
  (writeLoop (-1) 0 page_list).map fun ls => ls ++ [eofLine]

/-- Model of str.strip: remove leading and trailing whitespace. -/
def pyStrip (l : List Char) : List Char :=
  ((l.dropWhile Char.isWhitespace).reverse.dropWhile Char.isWhitespace).reverse

/-- Model of the regex match opening Hexfile.read, on the stripped
line: ':' then groups (SS)(SSSS)(SS)(S*)(SS) of non-whitespace
characters, the greedy middle group backtracking to leave the final
two-character checksum group.  The match covers the leading maximal
non-whitespace run, which must be at least 10 characters; a failed
match makes m.groups() raise (none). -/
def parseLine (line : List Char) :
    Option (List Char × List Char × List Char × List Char × List Char) :=
  match pyStrip line with
  | [] => Option.none
  | c :: rest =>
    if c = ':' then
      let r := rest.takeWhile (fun ch => ¬ ch.isWhitespace)
      if r.length < 10 then Option.none
      else
        some (r.take 2, (r.drop 2).take 4, (r.drop 6).take 2,
          (r.drop 8).take (r.length - 10), r.drop (r.length - 2))
    else Option.none

/-- One line of Hexfile.read: split the record, update the rolling
extended-address base on a type-04 record, recompute and verify the
checksum (the assert), locate page and word offset (with the shadow
divmod assert), and store a type-00 record's words into the page list
through Page() creation and Page.__setitem__. -/
def readLine (st : Nat × List (Option (List Word))) (line : List Char) :
    Option (Nat × List (Option (List Word))) := do
  let (countS, addressS, rectypeS, wordsS, checksumS) ← parseLine line
  let count ← parseHex? countS
  let base ← if rectypeS = "04".toList then (parseHex? wordsS).map (· <<< 16)
             else some st.1
  let aSum ← hex_to_sum addressS
  let tSum ← hex_to_sum rectypeS
  let wSum ← hex_to_sum wordsS
  let calcsumS := fmt02X (twosComp (count + aSum + tSum + wSum))
  if calcsumS ≠ checksumS then Option.none
  else do
    let addr16 ← parseHex? addressS
    let full_address := base + addr16
    let page_num := (full_address + 1) / PAGEBYTES
    let offset := full_address % PAGEBYTES
    if ¬ (full_address / PAGEBYTES = page_num ∧ full_address % PAGEBYTES = offset)
    then Option.none
    else
      let word_offset := offset / 2
      let word_count := count / 2
      if rectypeS = "00".toList then
        let page_list := if st.2.length ≤ page_num
                         then hexSetitem st.2 page_num Option.none
                         else st.2
        (hexGetitem page_list page_num).bind fun page =>
          match pageSetitem page
              (.slice word_offset (word_offset + word_count)) (.str wordsS) with
          | .error _ => Option.none
          | .ok page2 => some (base, page_list.set page_num (some page2))
      else some (base, st.2)

/-- Model of intelhex.Hexfile.read on a fresh Hexfile: fold the lines
with base = 0 and an empty page list. -/
def read (lines : List (List Char)) : Option (List (Option (List Word))) :=
  (lines.foldlM readLine (0, [])).map fun st => st.2

/-- The word of a memory image at page p, word offset i; absent pages
and out-of-range positions are absent. -/
def wordAt (hf : List (Option (List Word))) (p i : Nat) : Word :=
  match hexGetitem hf p with
  | some page => page.getD i Option.none
  | Option.none => Option.none

/-- A well-formed memory image: within the extended-address range,
every page exactly PAGELEN words, every word 16 bits. -/
def WFImage (hf : List (Option (List Word))) : Prop :=
  hf.length ≤ 0x400 * 0x10000
  ∧ ∀ pg ∈ hf, ∀ page, pg = some page →
      page.length = PAGELEN ∧ ∀ w ∈ page, ∀ v, w = some v → v < 2 ^ 16

theorem list_set_self {α : Type} (l : List α) (n : Nat) (a : α)
    (h : l[n]? = some a) : l.set n a = l := by
  apply List.ext_getElem?
  intro m
  rw [List.getElem?_set]
  split
  · rename_i hm
    subst hm
    obtain ⟨hlt, _⟩ := List.getElem?_eq_some.mp h
    rw [if_pos hlt, h]
  · rfl

/-- A character emitted by the hexadecimal formatters. -/
def IsHexUChar (c : Char) : Prop := ∃ d, d < 16 ∧ c = hexDigitU d

theorem hexDigit?_hexDigitU : ∀ d, d < 16 → hexDigit? (hexDigitU d) = some d := by
  decide

theorem hexDigitU_not_ws : ∀ d, d < 16 → (hexDigitU d).isWhitespace = false := by
  decide

theorem isHexUChar_not_ws {c : Char} (h : IsHexUChar c) : c.isWhitespace = false := by
  obtain ⟨d, hd, rfl⟩ := h
  exact hexDigitU_not_ws d hd

theorem toHexU_lt256 (n : Nat) (h : n < 256) :
    toHexU n = if n < 16 then [hexDigitU n]
      else [hexDigitU (n / 16), hexDigitU (n % 16)] := by
  by_cases h16 : n < 16
  · rw [toHexU, if_pos h16, if_pos h16]
  · rw [toHexU, if_neg h16, if_neg h16, toHexU, if_pos (by omega : n / 16 < 16)]
    rfl

theorem fmt02X_eq (n : Nat) (h : n < 256) :
    fmt02X n = [hexDigitU (n / 16), hexDigitU (n % 16)] := by
  unfold fmt02X
  rw [toHexU_lt256 n h]
  by_cases h16 : n < 16
  · rw [if_pos h16]
    have h1 : n / 16 = 0 := by omega
    have h2 : n % 16 = n := by omega
    rw [h1, h2]
    rfl
  · rw [if_neg h16]
    rfl

theorem fmt02X_chars (n : Nat) (h : n < 256) :
    ∀ c ∈ fmt02X n, IsHexUChar c := by
  rw [fmt02X_eq n h]
  intro c hc
  rcases hc with _ | ⟨_, _ | ⟨_, h0⟩⟩
  · exact ⟨n / 16, by omega, rfl⟩
  · exact ⟨n % 16, by omega, rfl⟩
  · cases h0

theorem fmt02X_length (n : Nat) (h : n < 256) : (fmt02X n).length = 2 := by
  rw [fmt02X_eq n h]
  rfl

theorem hexDigitU_zero : hexDigitU 0 = '0' := by decide

theorem fmt04X_eq (n : Nat) (h : n < 65536) :
    fmt04X n = fmt02X (n / 256) ++ fmt02X (n % 256) := by
  by_cases h256 : n < 256
  · have h1 : n / 256 = 0 := by omega
    have h2 : n % 256 = n := by omega
    rw [h1, h2, fmt02X_eq 0 (by omega)]
    unfold fmt04X fmt02X
    rw [toHexU_lt256 n h256]
    by_cases h16 : n < 16
    · rw [if_pos h16]
      simp [hexDigitU_zero]
    · rw [if_neg h16]
      simp [hexDigitU_zero]
  · unfold fmt04X
    rw [toHexU, if_neg (by omega : ¬ n < 16)]
    rw [fmt02X_eq (n / 256) (by omega), fmt02X_eq (n % 256) (by omega)]
    by_cases h4096 : n < 4096
    · rw [toHexU_lt256 (n / 16) (by omega), if_neg (by omega : ¬ n / 16 < 16)]
      have ha : n / 256 / 16 = 0 := by omega
      have hb : n / 16 / 16 = n / 256 % 16 := by omega
      have hc : n / 16 % 16 = n % 256 / 16 := by omega
      have hd : n % 16 = n % 256 % 16 := by omega
      rw [ha, hb, hc, hd, hexDigitU_zero]
      simp
    · rw [toHexU, if_neg (by omega : ¬ n / 16 < 16)]
      have hq : n / 16 / 16 = n / 256 := by omega
      rw [hq, toHexU_lt256 (n / 256) (by omega), if_neg (by omega : ¬ n / 256 < 16)]
      have hc : n / 16 % 16 = n % 256 / 16 := by omega
      have hd : n % 16 = n % 256 % 16 := by omega
      rw [hc, hd]
      simp

theorem fmt04X_chars (n : Nat) (h : n < 65536) :
    ∀ c ∈ fmt04X n, IsHexUChar c := by
  rw [fmt04X_eq n h]
  intro c hc
  rcases List.mem_append.mp hc with hc | hc
  · exact fmt02X_chars (n / 256) (by omega) c hc
  · exact fmt02X_chars (n % 256) (by omega) c hc

theorem fmt04X_length (n : Nat) (h : n < 65536) : (fmt04X n).length = 4 := by
  rw [fmt04X_eq n h, List.length_append, fmt02X_length _ (by omega),
    fmt02X_length _ (by omega)]

theorem parseHexFrom_cons (acc d : Nat) (hd : d < 16) (l : List Char) :
    parseHexFrom acc (hexDigitU d :: l) = parseHexFrom (acc * 16 + d) l := by
  unfold parseHexFrom
  rw [List.foldlM_cons, hexDigit?_hexDigitU d hd]
  rfl

theorem parseHexFrom_nil (acc : Nat) : parseHexFrom acc [] = some acc := rfl

theorem parseHexFrom_fmt02X (acc n : Nat) (h : n < 256) :
    parseHexFrom acc (fmt02X n) = some (acc * 256 + n) := by
  rw [fmt02X_eq n h, parseHexFrom_cons _ _ (by omega), parseHexFrom_cons _ _ (by omega),
    parseHexFrom_nil]
  congr 1
  omega

theorem parseHexFrom_append (acc : Nat) (l1 l2 : List Char) :
    parseHexFrom acc (l1 ++ l2)
      = (parseHexFrom acc l1).bind fun a => parseHexFrom a l2 := by
  unfold parseHexFrom
  rw [List.foldlM_append]
  rfl

theorem parseHex?_fmt02X (n : Nat) (h : n < 256) : parseHex? (fmt02X n) = some n := by
  unfold parseHex?
  rw [if_neg (by rw [fmt02X_eq n h]; simp), parseHexFrom_fmt02X 0 n h]
  congr 1
  omega

theorem parseHex?_fmt04X (n : Nat) (h : n < 65536) :
    parseHex? (fmt04X n) = some n := by
  unfold parseHex?
  rw [if_neg (by rw [fmt04X_eq n h, fmt02X_eq _ (by omega)]; simp)]
  rw [fmt04X_eq n h, parseHexFrom_append, parseHexFrom_fmt02X 0 _ (by omega)]
  show parseHexFrom (0 * 256 + n / 256) (fmt02X (n % 256)) = some n
  rw [parseHexFrom_fmt02X _ _ (by omega)]
  congr 1
  omega

theorem and255_eq_mod (a : Nat) : a &&& 255 = a % 256 := by
  have h : (255 : Nat) = 2 ^ 8 - 1 := by norm_num
  rw [h, Nat.and_pow_two_sub_one_eq_mod]

theorem twosComp_congr (x y : Nat) (h : x % 256 = y % 256) : twosComp x = twosComp y := by
  unfold twosComp
  congr 1
  omega

theorem chunks2_cons2 {α : Type} (a b : α) (l : List α) :
    chunks2 (a :: b :: l) = [a, b] :: chunks2 l := rfl

theorem hex_to_sum_nil : hex_to_sum [] = some 0 := rfl

theorem parseHex?_two (a b : Nat) (ha : a < 16) (hb : b < 16) :
    parseHex? [hexDigitU a, hexDigitU b] = some (a * 16 + b) := by
  unfold parseHex?
  rw [if_neg (by simp), parseHexFrom_cons _ _ ha, parseHexFrom_cons _ _ hb,
    parseHexFrom_nil]
  congr 1
  ring

theorem hex_to_sum_fmt02X_cons (x : Nat) (hx : x < 256) (l : List Char) :
    hex_to_sum (fmt02X x ++ l) = (hex_to_sum l).map fun s => x + s := by
  rw [fmt02X_eq x hx]
  show hex_to_sum (hexDigitU (x / 16) :: hexDigitU (x % 16) :: l) = _
  unfold hex_to_sum
  rw [chunks2_cons2, List.mapM_cons]
  have h1 : (if ([hexDigitU (x / 16), hexDigitU (x % 16)] : List Char).length = 2
      then parseHex? [hexDigitU (x / 16), hexDigitU (x % 16)] else Option.none)
      = some x := by
    rw [if_pos (show ([hexDigitU (x / 16), hexDigitU (x % 16)] : List Char).length = 2
        from rfl),
      parseHex?_two _ _ (by omega) (by omega)]
    congr 1
    omega
  rw [h1]
  cases hm : (chunks2 l).mapM fun w =>
      if w.length = 2 then parseHex? w else Option.none with
  | none => simp [hm]
  | some as => simp [hm]

theorem hex_to_sum_fmt02X (m : Nat) (h : m < 256) :
    hex_to_sum (fmt02X m) = some m := by
  have h2 := hex_to_sum_fmt02X_cons m h []
  rw [List.append_nil] at h2
  rw [h2, hex_to_sum_nil]
  rfl

theorem hex_to_sum_fmt04X (n : Nat) (h : n < 65536) :
    hex_to_sum (fmt04X n) = some (n / 256 + n % 256) := by
  rw [fmt04X_eq n h, hex_to_sum_fmt02X_cons _ (by omega),
    hex_to_sum_fmt02X _ (by omega)]
  rfl

theorem fmt02X_zero : fmt02X 0 = "00".toList := by
  rw [fmt02X_eq 0 (by omega)]
  decide

theorem hexDigitU_ne_space : ∀ d, d < 16 → hexDigitU d ≠ ' ' := by decide

theorem chunks4_append4 {α : Type} (l rest : List α) (h : l.length = 4) :
    chunks4 (l ++ rest) = l :: chunks4 rest := by
  match l, h with
  | [a, b, c, d], _ => rfl

theorem fmt_spec (v : Nat) (h : v < 65536) :
    fmt v = fmt02X (v % 256) ++ fmt02X (v / 256)
    ∧ (fmt v).length = 4 ∧ (∀ c ∈ fmt v, IsHexUChar c)
    ∧ parseWord4 (fmt v) = some (some v) := by
  refine ⟨rfl, ?_, ?_, ?_⟩
  · show (fmt02X (v % 256) ++ fmt02X (v / 256)).length = 4
    rw [List.length_append, fmt02X_length _ (by omega), fmt02X_length _ (by omega)]
  · intro c hc
    rcases List.mem_append.mp hc with hc | hc
    · exact fmt02X_chars _ (by omega) c hc
    · exact fmt02X_chars _ (by omega) c hc
  · unfold parseWord4
    have hne : fmt v ≠ [' ', ' ', ' ', ' '] := by
      show fmt02X (v % 256) ++ fmt02X (v / 256) ≠ _
      rw [fmt02X_eq _ (by omega : v % 256 < 256)]
      intro heq
      exact hexDigitU_ne_space (v % 256 / 16) (by omega) (List.cons.inj heq).1
    rw [if_neg hne]
    have htake : (fmt v).take 2 = fmt02X (v % 256) := by
      show (fmt02X (v % 256) ++ fmt02X (v / 256)).take 2 = _
      rw [List.take_left' (fmt02X_length _ (by omega))]
    have hdrop : (fmt v).drop 2 = fmt02X (v / 256) := by
      show (fmt02X (v % 256) ++ fmt02X (v / 256)).drop 2 = _
      rw [List.drop_left' (fmt02X_length _ (by omega))]
    rw [htake, hdrop, parseHex?_fmt02X _ (by omega : v % 256 < 256),
      parseHex?_fmt02X _ (by omega : v / 256 < 256)]
    have hv2 : v % 256 + (v / 256) <<< 8 = v := by
      rw [Nat.shiftLeft_eq]
      omega
    simp [hv2]

theorem joinFmt_spec : ∀ (run : List Word),
    (∀ w ∈ run, ∃ v, w = some v ∧ v < 2 ^ 16) →
    ∃ d, joinFmt run = some d ∧ d.length = 4 * run.length
      ∧ (∀ c ∈ d, IsHexUChar c)
      ∧ hex_to_sum d = some ((run.map fun w =>
          match w with
          | some v => v % 256 + v / 256
          | Option.none => 0).sum)
      ∧ strWords d = some run := by
  intro run
  induction run with
  | nil =>
    intro _
    exact ⟨[], rfl, rfl, by simp, rfl, rfl⟩
  | cons w rest ih =>
    intro h
    obtain ⟨v, rfl, hv⟩ := h w (List.mem_cons_self _ _)
    obtain ⟨drest, hjoin, hlen, hchars, hsum, hwords⟩ :=
      ih (fun w hw => h w (List.mem_cons_of_mem _ hw))
    obtain ⟨hfmt, hflen, hfchars, hfparse⟩ := fmt_spec v hv
    refine ⟨fmt v ++ drest, ?_, ?_, ?_, ?_, ?_⟩
    · unfold joinFmt at hjoin ⊢
      rw [List.mapM_cons]
      rcases Option.map_eq_some.mp hjoin with ⟨ds, hds, rfl⟩
      rw [hds]
      simp
    · rw [List.length_append, hflen, hlen, List.length_cons]
      ring
    · intro c hc
      rcases List.mem_append.mp hc with hc | hc
      · exact hfchars c hc
      · exact hchars c hc
    · rw [hfmt, List.append_assoc, hex_to_sum_fmt02X_cons _ (by omega),
        hex_to_sum_fmt02X_cons _ (by omega), hsum]
      show some (v % 256 + (v / 256 + (List.map _ rest).sum))
        = some (v % 256 + v / 256 + (List.map _ rest).sum)
      congr 1
      omega
    · unfold strWords at hwords ⊢
      rw [chunks4_append4 _ _ hflen, List.mapM_cons, hfparse, hwords]
      rfl

theorem dropWhile_eq_self' {α : Type} (p : α → Bool) (l : List α)
    (h : ∀ c ∈ l, p c = false) : l.dropWhile p = l := by
  cases l with
  | nil => rfl
  | cons a t =>
    rw [List.dropWhile_cons, h a (List.mem_cons_self _ _)]
    simp

theorem takeWhile_eq_self' {α : Type} (p : α → Bool) (l : List α)
    (h : ∀ c ∈ l, p c = true) : l.takeWhile p = l := by
  induction l with
  | nil => rfl
  | cons a t ih =>
    rw [List.takeWhile_cons, h a (List.mem_cons_self _ _)]
    simp only [if_true]
    rw [ih (fun c hc => h c (List.mem_cons_of_mem _ hc))]

theorem pyStrip_eq_self (l : List Char) (h : ∀ c ∈ l, c.isWhitespace = false) :
    pyStrip l = l := by
  unfold pyStrip
  rw [dropWhile_eq_self' _ _ h, dropWhile_eq_self', List.reverse_reverse]
  intro c hc
  exact h c (List.mem_reverse.mp hc)

theorem parseLine_parts (c1 c2 c3 d c5 : List Char)
    (h1 : c1.length = 2) (h2 : c2.length = 4) (h3 : c3.length = 2)
    (h5 : c5.length = 2)
    (hws : ∀ c ∈ c1 ++ (c2 ++ (c3 ++ (d ++ c5))), c.isWhitespace = false) :
    parseLine (':' :: (c1 ++ (c2 ++ (c3 ++ (d ++ c5)))))
      = some (c1, c2, c3, d, c5) := by
  have hlenbody : (c1 ++ (c2 ++ (c3 ++ (d ++ c5)))).length = 10 + d.length := by
    simp [h1, h2, h3, h5]
    omega
  have hstrip : pyStrip (':' :: (c1 ++ (c2 ++ (c3 ++ (d ++ c5)))))
      = ':' :: (c1 ++ (c2 ++ (c3 ++ (d ++ c5)))) := by
    apply pyStrip_eq_self
    intro c hc
    rcases List.mem_cons.mp hc with rfl | hc
    · rfl
    · exact hws c hc
  have hr : (c1 ++ (c2 ++ (c3 ++ (d ++ c5)))).takeWhile
      (fun ch => ¬ ch.isWhitespace) = c1 ++ (c2 ++ (c3 ++ (d ++ c5))) := by
    apply takeWhile_eq_self'
    intro c hc
    simp [hws c hc]
  have g1 : (c1 ++ (c2 ++ (c3 ++ (d ++ c5)))).take 2 = c1 := List.take_left' h1
  have hd2 : (c1 ++ (c2 ++ (c3 ++ (d ++ c5)))).drop 2 = c2 ++ (c3 ++ (d ++ c5)) :=
    List.drop_left' h1
  have g2 : ((c1 ++ (c2 ++ (c3 ++ (d ++ c5)))).drop 2).take 4 = c2 := by
    rw [hd2, List.take_left' h2]
  have hd6 : (c1 ++ (c2 ++ (c3 ++ (d ++ c5)))).drop 6 = c3 ++ (d ++ c5) := by
    rw [show (6 : Nat) = 2 + 4 from rfl, ← List.drop_drop, hd2, List.drop_left' h2]
  have g3 : ((c1 ++ (c2 ++ (c3 ++ (d ++ c5)))).drop 6).take 2 = c3 := by
    rw [hd6, List.take_left' h3]
  have hd8 : (c1 ++ (c2 ++ (c3 ++ (d ++ c5)))).drop 8 = d ++ c5 := by
    rw [show (8 : Nat) = 6 + 2 from rfl, ← List.drop_drop, hd6, List.drop_left' h3]
  have g4 : ((c1 ++ (c2 ++ (c3 ++ (d ++ c5)))).drop 8).take
      ((c1 ++ (c2 ++ (c3 ++ (d ++ c5)))).length - 10) = d := by
    rw [hd8, hlenbody, show 10 + d.length - 10 = d.length from by omega,
      List.take_left]
  have g5 : (c1 ++ (c2 ++ (c3 ++ (d ++ c5)))).drop
      ((c1 ++ (c2 ++ (c3 ++ (d ++ c5)))).length - 10 + 8) = c5 := by
    rw [hlenbody, show 10 + d.length - 10 + 8 = 8 + d.length from by omega,
      ← List.drop_drop, hd8, List.drop_left]
  unfold parseLine
  rw [hstrip]
  show (if ':' = ':' then _ else Option.none) = _
  rw [if_pos (rfl : ':' = ':')]
  simp only [hr]
  rw [if_neg (by omega : ¬ (c1 ++ (c2 ++ (c3 ++ (d ++ c5)))).length < 10)]
  rw [g1, g2, g3, g4]
  rw [show (c1 ++ (c2 ++ (c3 ++ (d ++ c5)))).length - 2
      = (c1 ++ (c2 ++ (c3 ++ (d ++ c5)))).length - 10 + 8 from by omega, g5]

/-- Specification device: write the present words of a block over a page,
word position by word position, starting at word offset w; absent words
leave the page untouched. -/
def overlay : List Word → Nat → List Word → List Word
  | cp, _, [] => cp
  | cp, w, Option.none :: rest => overlay cp (w + 1) rest
  | cp, w, some v :: rest => overlay (cp.set w (some v)) (w + 1) rest

/-- Apply a chunk list (as produced by block_chunks) to a page by slice
assignment, the way Hexfile.read stores the corresponding records; w is
the word offset where the chunk list starts. -/
def applyChunks : List Word → Nat → List (Nat × List Word) → List Word
  | cp, _, [] => cp
  | cp, w, (g, run) :: rest =>
    applyChunks (sliceAssign cp (w + g) (w + g + run.length) run)
      (w + g + run.length) rest

/-- Total word extent of a chunk list: gaps plus run lengths. -/
def chunkExtent (chunks : List (Nat × List Word)) : Nat :=
  (chunks.map fun c => c.1 + c.2.length).sum

/-- The read-side state of page k in the page list: either the page was
not created yet (and its contents are the blank page), or it is stored
at index k. -/
def PageSt (pl : List (Option (List Word))) (k : Nat) (cp : List Word) : Prop :=
  cp.length = PAGELEN ∧ (pl.length ≤ k ∧ cp = pageNew ∨ pl[k]? = some (some cp))

/-- Every present page of the page list is PAGELEN words of concrete
16-bit or absent positions (the second component of WFImage). -/
def PagesWF (pl : List (Option (List Word))) : Prop :=
  ∀ pg ∈ pl, ∀ page, pg = some page →
    page.length = PAGELEN ∧ ∀ x ∈ page, ∀ v, x = some v → v < 2 ^ 16

theorem sliceAssign_eq {α : Type} (l v : List α) (s n : Nat)
    (h : s + n ≤ l.length) :
    sliceAssign l s (s + n) v = l.take s ++ v ++ l.drop (s + n) := by
  have h2 : max (min (s + n) l.length) (min s l.length) = s + n := by omega
  have h1 : min s l.length = s := by omega
  show l.take (min s l.length) ++ v
      ++ l.drop (max (min (s + n) l.length) (min s l.length)) = _
  rw [h2, h1]

theorem sliceAssign_length {α : Type} (l v : List α) (s n : Nat)
    (h : s + n ≤ l.length) (hv : v.length = n) :
    (sliceAssign l s (s + n) v).length = l.length := by
  rw [sliceAssign_eq l v s n h]
  simp only [List.length_append, List.length_take, List.length_drop, hv]
  omega

theorem sliceAssign_getElem? {α : Type} (l v : List α) (s n i : Nat)
    (h : s + n ≤ l.length) (hv : v.length = n) :
    (sliceAssign l s (s + n) v)[i]?
      = if s ≤ i ∧ i < s + n then v[i - s]? else l[i]? := by
  rw [sliceAssign_eq l v s n h]
  have ht : (l.take s).length = s := by rw [List.length_take]; omega
  have ht2 : (l.take s ++ v).length = s + n := by
    rw [List.length_append, ht, hv]
  rcases Nat.lt_or_ge i s with hi | hi
  · rw [if_neg (by omega)]
    rw [List.getElem?_append_left (show i < (l.take s ++ v).length from by
      rw [ht2]; omega)]
    rw [List.getElem?_append_left (show i < (l.take s).length from by rw [ht]; exact hi)]
    rw [List.getElem?_take, if_pos hi]
  · rcases Nat.lt_or_ge i (s + n) with hi2 | hi2
    · rw [if_pos ⟨hi, hi2⟩]
      rw [List.getElem?_append_left (show i < (l.take s ++ v).length from by
        rw [ht2]; omega)]
      rw [List.getElem?_append_right (show (l.take s).length ≤ i from by rw [ht]; exact hi)]
      rw [ht]
    · rw [if_neg (by omega)]
      rw [List.getElem?_append_right (show (l.take s ++ v).length ≤ i from by
        rw [ht2]; omega)]
      rw [ht2]
      rw [List.getElem?_drop]
      congr 1
      omega

theorem sliceAssign_snoc (l run : List Word) (s : Nat) (x : Word)
    (h : s + run.length < l.length) :
    sliceAssign l s (s + run.length + 1) (run ++ [x])
      = (sliceAssign l s (s + run.length) run).set (s + run.length) x := by
  apply List.ext_getElem?
  intro i
  have hlen2 : (sliceAssign l s (s + run.length) run).length = l.length :=
    sliceAssign_length l run s run.length (by omega) rfl
  rw [show s + run.length + 1 = s + (run.length + 1) from by omega,
    sliceAssign_getElem? l (run ++ [x]) s (run.length + 1) i (by omega) (by simp),
    List.getElem?_set, hlen2,
    sliceAssign_getElem? l run s run.length i (by omega) rfl]
  rcases Nat.lt_or_ge i s with hi | hi
  · rw [if_neg (by omega), if_neg (by omega : ¬ s + run.length = i), if_neg (by omega)]
  · rcases Nat.lt_or_ge i (s + run.length) with hi2 | hi2
    · rw [if_pos (show s ≤ i ∧ i < s + (run.length + 1) from by omega),
        List.getElem?_append_left (show i - s < run.length from by omega),
        if_neg (by omega : ¬ s + run.length = i),
        if_pos (show s ≤ i ∧ i < s + run.length from by omega)]
    · rcases Nat.lt_or_ge i (s + run.length + 1) with hi3 | hi3
      · have hieq : s + run.length = i := by omega
        rw [if_pos (show s ≤ i ∧ i < s + (run.length + 1) from by omega),
          List.getElem?_append_right (show run.length ≤ i - s from by omega),
          if_pos hieq, if_pos (show s + run.length < l.length from h)]
        rw [show i - s - run.length = 0 from by omega]
        rfl
      · rw [if_neg (by omega), if_neg (by omega : ¬ s + run.length = i),
          if_neg (by omega)]

theorem bcGo_extent : ∀ (block : List Word) (g : Nat) (acc : Option (List Word)),
    chunkExtent (bcGo block g acc)
      ≤ g + (match acc with | some run => run.length | Option.none => 0)
          + block.length := by
  intro block
  induction block with
  | nil =>
    intro g acc
    cases acc with
    | none => simp [bcGo, chunkExtent]
    | some run => simp [bcGo, chunkExtent]
  | cons w rest ih =>
    intro g acc
    cases acc with
    | none =>
      cases w with
      | none =>
        have h := ih (g + 1) Option.none
        simp [bcGo] at h ⊢
        omega
      | some v =>
        have h := ih g (some [some v])
        simp [bcGo] at h ⊢
        omega
    | some run =>
      cases w with
      | some v =>
        have h := ih g (some (run ++ [some v]))
        simp [bcGo] at h ⊢
        omega
      | none =>
        have h := ih 1 Option.none
        simp [bcGo, chunkExtent] at h ⊢
        omega

theorem bcGo_runs (Q : Nat → Prop) :
    ∀ (block : List Word) (g : Nat) (acc : Option (List Word)),
    (∀ v, some v ∈ block → Q v) →
    (∀ run, acc = some run → run ≠ [] ∧ ∀ w ∈ run, ∃ v, w = some v ∧ Q v) →
    ∀ gr ∈ bcGo block g acc,
      gr.2 ≠ [] ∧ ∀ w ∈ gr.2, ∃ v, w = some v ∧ Q v := by
  intro block
  induction block with
  | nil =>
    intro g acc hb hacc gr hgr
    cases acc with
    | none => simp [bcGo] at hgr
    | some run =>
      simp [bcGo] at hgr
      subst hgr
      exact hacc run rfl
  | cons w rest ih =>
    intro g acc hb hacc gr hgr
    have hbrest : ∀ v, some v ∈ rest → Q v :=
      fun v hv => hb v (List.mem_cons_of_mem _ hv)
    cases acc with
    | none =>
      cases w with
      | none => exact ih (g + 1) Option.none hbrest (by simp) gr hgr
      | some v =>
        refine ih g (some [some v]) hbrest ?_ gr hgr
        intro run hrun
        cases hrun
        exact ⟨by simp, by
          intro w hw
          simp at hw
          exact ⟨v, hw, hb v (List.mem_cons_self _ _)⟩⟩
    | some run =>
      have hrun := hacc run rfl
      cases w with
      | some v =>
        refine ih g (some (run ++ [some v])) hbrest ?_ gr hgr
        intro run2 hrun2
        cases hrun2
        refine ⟨by simp, ?_⟩
        intro w hw
        rcases List.mem_append.mp hw with hw | hw
        · exact hrun.2 w hw
        · simp at hw
          exact ⟨v, hw, hb v (List.mem_cons_self _ _)⟩
      | none =>
        rw [show bcGo (Option.none :: rest) g (some run)
            = (g, run) :: bcGo rest 1 Option.none from rfl] at hgr
        rcases List.mem_cons.mp hgr with rfl | hgr
        · exact hrun
        · exact ih 1 Option.none hbrest (by simp) gr hgr

theorem bcGo_apply : ∀ (block : List Word) (g w : Nat) (acc : Option (List Word))
    (cp : List Word), cp.length = PAGELEN →
    w + g + (match acc with | some run => run.length | Option.none => 0)
      + block.length ≤ PAGELEN →
    applyChunks cp w (bcGo block g acc)
      = overlay
          (match acc with
           | some run => sliceAssign cp (w + g) (w + g + run.length) run
           | Option.none => cp)
          (match acc with
           | some run => w + g + run.length
           | Option.none => w + g) block := by
  intro block
  induction block with
  | nil =>
    intro g w acc cp hcp hext
    cases acc with
    | none => rfl
    | some run => rfl
  | cons x rest ih =>
    intro g w acc cp hcp hext
    cases acc with
    | none =>
      cases x with
      | none =>
        rw [show bcGo (Option.none :: rest) g Option.none
            = bcGo rest (g + 1) Option.none from rfl]
        rw [ih (g + 1) w Option.none cp hcp (by simp at hext ⊢; omega)]
        rw [show overlay cp (w + g) (Option.none :: rest)
            = overlay cp (w + g + 1) rest from rfl]
        rfl
      | some v =>
        rw [show bcGo (some v :: rest) g Option.none
            = bcGo rest g (some [some v]) from rfl]
        rw [ih g w (some [some v]) cp hcp (by simp at hext ⊢; omega)]
        rw [show overlay cp (w + g) (some v :: rest)
            = overlay (cp.set (w + g) (some v)) (w + g + 1) rest from rfl]
        have hs : sliceAssign cp (w + g) (w + g + 1) [some v]
            = cp.set (w + g) (some v) := by
          apply List.ext_getElem?
          intro i
          rw [sliceAssign_getElem? cp [some v] (w + g) 1 i
              (by simp at hext ⊢; omega) rfl,
            List.getElem?_set]
          rcases Nat.lt_or_ge i (w + g) with hi | hi
          · rw [if_neg (by omega), if_neg (by omega : ¬ w + g = i)]
          · rcases Nat.lt_or_ge i (w + g + 1) with hi2 | hi2
            · rw [if_pos (show w + g ≤ i ∧ i < w + g + 1 from by omega),
                if_pos (by omega : w + g = i),
                if_pos (show w + g < cp.length from by
                  rw [hcp]; simp at hext ⊢; omega)]
              rw [show i - (w + g) = 0 from by omega]
              rfl
            · rw [if_neg (by omega), if_neg (by omega : ¬ w + g = i)]
        show overlay (sliceAssign cp (w + g) (w + g + 1) [some v]) (w + g + 1) rest
          = overlay (cp.set (w + g) (some v)) (w + g + 1) rest
        rw [hs]
    | some run =>
      cases x with
      | some v =>
        rw [show bcGo (some v :: rest) g (some run)
            = bcGo rest g (some (run ++ [some v])) from rfl]
        rw [ih g w (some (run ++ [some v])) cp hcp (by simp at hext ⊢; omega)]
        show overlay (sliceAssign cp (w + g) (w + g + (run ++ [some v]).length)
              (run ++ [some v])) (w + g + (run ++ [some v]).length) rest
          = overlay ((sliceAssign cp (w + g) (w + g + run.length) run).set
              (w + g + run.length) (some v)) (w + g + run.length + 1) rest
        rw [show (run ++ [some v]).length = run.length + 1 from by simp]
        rw [show w + g + (run.length + 1) = w + g + run.length + 1 from by omega]
        rw [sliceAssign_snoc cp run (w + g) (some v) (by simp at hext ⊢; omega)]
      | none =>
        rw [show bcGo (Option.none :: rest) g (some run)
            = (g, run) :: bcGo rest 1 Option.none from rfl]
        rw [show applyChunks cp w ((g, run) :: bcGo rest 1 Option.none)
            = applyChunks (sliceAssign cp (w + g) (w + g + run.length) run)
                (w + g + run.length) (bcGo rest 1 Option.none) from rfl]
        rw [ih 1 (w + g + run.length) Option.none
          (sliceAssign cp (w + g) (w + g + run.length) run)
          (by rw [sliceAssign_length cp run (w + g) run.length
                (by simp at hext ⊢; omega) rfl, hcp])
          (by simp at hext ⊢; omega)]
        rfl

theorem overlay_length : ∀ (block cp : List Word) (w : Nat),
    (overlay cp w block).length = cp.length := by
  intro block
  induction block with
  | nil => intro cp w; rfl
  | cons x rest ih =>
    intro cp w
    cases x with
    | none => exact ih cp (w + 1)
    | some v =>
      show (overlay (cp.set w (some v)) (w + 1) rest).length = _
      rw [ih (cp.set w (some v)) (w + 1), List.length_set]

theorem overlay_getD_lt : ∀ (block cp : List Word) (w i : Nat), i < w →
    (overlay cp w block).getD i Option.none = cp.getD i Option.none := by
  intro block
  induction block with
  | nil => intro cp w i _; rfl
  | cons x rest ih =>
    intro cp w i hi
    cases x with
    | none => exact ih cp (w + 1) i (by omega)
    | some v =>
      show (overlay (cp.set w (some v)) (w + 1) rest).getD i Option.none = _
      rw [ih (cp.set w (some v)) (w + 1) i (by omega)]
      simp only [List.getD_eq_getElem?_getD, List.getElem?_set]
      rw [if_neg (by omega : ¬ w = i)]

theorem overlay_getD_ge : ∀ (block cp : List Word) (w i : Nat),
    w + block.length ≤ i →
    (overlay cp w block).getD i Option.none = cp.getD i Option.none := by
  intro block
  induction block with
  | nil => intro cp w i _; rfl
  | cons x rest ih =>
    intro cp w i hi
    cases x with
    | none => exact ih cp (w + 1) i (by simp at hi ⊢; omega)
    | some v =>
      show (overlay (cp.set w (some v)) (w + 1) rest).getD i Option.none = _
      rw [ih (cp.set w (some v)) (w + 1) i (by simp at hi ⊢; omega)]
      simp only [List.getD_eq_getElem?_getD, List.getElem?_set]
      rw [if_neg (by simp at hi; omega : ¬ w = i)]

theorem overlay_getD_mid : ∀ (block cp : List Word) (w i : Nat), w ≤ i →
    i - w < block.length → w + block.length ≤ cp.length →
    (overlay cp w block).getD i Option.none
      = (block.getD (i - w) Option.none).or (cp.getD i Option.none) := by
  intro block
  induction block with
  | nil => intro cp w i _ hlt _; simp at hlt
  | cons x rest ih =>
    intro cp w i hw hlt hb
    rcases Nat.lt_or_ge i (w + 1) with hi | hi
    · have hiw : i = w := by omega
      subst hiw
      cases x with
      | none =>
        show (overlay cp (i + 1) rest).getD i Option.none = _
        rw [overlay_getD_lt rest cp (i + 1) i (by omega),
          show i - i = 0 from by omega, List.getD_cons_zero]
        rfl
      | some v =>
        have hset : (cp.set i (some v)).getD i Option.none = some v := by
          rw [List.getD_eq_getElem?_getD, List.getElem?_set,
            if_pos (show i = i from rfl),
            if_pos (show i < cp.length from by simp at hb; omega)]
          rfl
        show (overlay (cp.set i (some v)) (i + 1) rest).getD i Option.none = _
        rw [overlay_getD_lt rest (cp.set i (some v)) (i + 1) i (by omega), hset,
          show i - i = 0 from by omega, List.getD_cons_zero]
        rfl
    · have hstep : i - w = (i - (w + 1)) + 1 := by omega
      cases x with
      | none =>
        show (overlay cp (w + 1) rest).getD i Option.none = _
        rw [ih cp (w + 1) i hi (by simp at hlt ⊢; omega) (by simp at hb ⊢; omega)]
        rw [hstep, List.getD_cons_succ]
      | some v =>
        show (overlay (cp.set w (some v)) (w + 1) rest).getD i Option.none = _
        rw [ih (cp.set w (some v)) (w + 1) i hi (by simp at hlt ⊢; omega)
          (by rw [List.length_set]; simp at hb ⊢; omega)]
        rw [hstep, List.getD_cons_succ]
        congr 1
        simp only [List.getD_eq_getElem?_getD, List.getElem?_set]
        rw [if_neg (by omega : ¬ w = i)]

theorem pageNew_getD (i : Nat) : pageNew.getD i Option.none = Option.none := by
  rw [List.getD_eq_getElem?_getD, pageNew, List.getElem?_replicate]
  rcases Nat.lt_or_ge i PAGELEN with hi | hi
  · rw [if_pos hi]
    rfl
  · rw [if_neg (by omega)]
    rfl

theorem overlay_page (page : List Word) (h : page.length = PAGELEN) (i : Nat) :
    (overlay (overlay (overlay (overlay pageNew 0 ((page.drop 0).take 8))
        8 ((page.drop 8).take 8)) 16 ((page.drop 16).take 8))
      24 ((page.drop 24).take 8)).getD i Option.none
      = page.getD i Option.none := by
  have hP : PAGELEN = 32 := rfl
  have hplen : pageNew.length = PAGELEN := by
    rw [pageNew, List.length_replicate]
  have hbl : ∀ j : Nat, j + 8 ≤ 32 → ((page.drop j).take 8).length = 8 := by
    intro j hj
    rw [List.length_take, List.length_drop, h]
    omega
  have hbg : ∀ j : Nat, j ≤ i → i - j < 8 →
      ((page.drop j).take 8).getD (i - j) Option.none
        = page.getD i Option.none := by
    intro j hj hlt
    rw [List.getD_eq_getElem?_getD, List.getD_eq_getElem?_getD,
      List.getElem?_take, if_pos hlt, List.getElem?_drop,
      show j + (i - j) = i from by omega]
  have hlen0 : (overlay pageNew 0 ((page.drop 0).take 8)).length = PAGELEN := by
    rw [overlay_length, hplen]
  have hlen1 : (overlay (overlay pageNew 0 ((page.drop 0).take 8))
      8 ((page.drop 8).take 8)).length = PAGELEN := by
    rw [overlay_length, hlen0]
  have hlen2 : (overlay (overlay (overlay pageNew 0 ((page.drop 0).take 8))
      8 ((page.drop 8).take 8)) 16 ((page.drop 16).take 8)).length = PAGELEN := by
    rw [overlay_length, hlen1]
  rcases Nat.lt_or_ge i 8 with h8 | hge8
  · rw [overlay_getD_lt _ _ 24 i (by omega), overlay_getD_lt _ _ 16 i (by omega),
      overlay_getD_lt _ _ 8 i (by omega),
      overlay_getD_mid _ _ 0 i (by omega)
        (by rw [hbl 0 (by omega)]; omega)
        (by rw [hbl 0 (by omega), hplen]; omega),
      pageNew_getD, hbg 0 (by omega) (by omega), Option.or_none]
  rcases Nat.lt_or_ge i 16 with h16 | hge16
  · rw [overlay_getD_lt _ _ 24 i (by omega), overlay_getD_lt _ _ 16 i (by omega),
      overlay_getD_mid _ _ 8 i (by omega)
        (by rw [hbl 8 (by omega)]; omega)
        (by rw [hbl 8 (by omega), hlen0]; omega),
      overlay_getD_ge _ _ 0 i (by rw [hbl 0 (by omega)]; omega),
      pageNew_getD, hbg 8 (by omega) (by omega), Option.or_none]
  rcases Nat.lt_or_ge i 24 with h24 | hge24
  · rw [overlay_getD_lt _ _ 24 i (by omega),
      overlay_getD_mid _ _ 16 i (by omega)
        (by rw [hbl 16 (by omega)]; omega)
        (by rw [hbl 16 (by omega), hlen1]; omega),
      overlay_getD_ge _ _ 8 i (by rw [hbl 8 (by omega)]; omega),
      overlay_getD_ge _ _ 0 i (by rw [hbl 0 (by omega)]; omega),
      pageNew_getD, hbg 16 (by omega) (by omega), Option.or_none]
  rcases Nat.lt_or_ge i 32 with h32 | hge32
  · rw [overlay_getD_mid _ _ 24 i (by omega)
        (by rw [hbl 24 (by omega)]; omega)
        (by rw [hbl 24 (by omega), hlen2]; omega),
      overlay_getD_ge _ _ 16 i (by rw [hbl 16 (by omega)]; omega),
      overlay_getD_ge _ _ 8 i (by rw [hbl 8 (by omega)]; omega),
      overlay_getD_ge _ _ 0 i (by rw [hbl 0 (by omega)]; omega),
      pageNew_getD, hbg 24 (by omega) (by omega), Option.or_none]
  · rw [overlay_getD_ge _ _ 24 i (by rw [hbl 24 (by omega)]; omega),
      overlay_getD_ge _ _ 16 i (by rw [hbl 16 (by omega)]; omega),
      overlay_getD_ge _ _ 8 i (by rw [hbl 8 (by omega)]; omega),
      overlay_getD_ge _ _ 0 i (by rw [hbl 0 (by omega)]; omega),
      pageNew_getD, List.getD_eq_getElem?_getD,
      List.getElem?_eq_none (by rw [h]; omega)]
    rfl

theorem twosComp_lt (c : Nat) : twosComp c < 256 := by
  unfold twosComp
  omega

theorem readLine_eofLine (base : Nat) (pl : List (Option (List Word)))
    (hb : base % 64 = 0) :
    readLine (base, pl) eofLine = some (base, pl) := by
  have hparse : parseLine eofLine
      = some (['0','0'], ['0','0','0','0'], ['0','1'], ([] : List Char),
          ['F','F']) := by
    decide
  have hck : fmt02X (twosComp (0 + 0 + 1 + 0)) = ['F','F'] := by
    rw [show twosComp (0 + 0 + 1 + 0) = 255 from by decide, fmt02X_eq 255 (by omega)]
    decide
  have hA : (base + 0) / PAGEBYTES = (base + 0 + 1) / PAGEBYTES := by
    rw [show PAGEBYTES = 64 from rfl]
    omega
  unfold readLine
  rw [hparse]
  simp only [Option.bind_eq_bind, Option.some_bind]
  rw [show parseHex? ['0','0'] = some 0 from rfl]
  try simp only [Option.some_bind]
  rw [if_neg (show ¬ (['0','1'] : List Char) = "04".toList from by decide)]
  try simp only [Option.some_bind]
  rw [show hex_to_sum ['0','0','0','0'] = some 0 from rfl]
  try simp only [Option.some_bind]
  rw [show hex_to_sum ['0','1'] = some 1 from rfl]
  try simp only [Option.some_bind]
  rw [show hex_to_sum ([] : List Char) = some 0 from rfl]
  try simp only [Option.some_bind]
  rw [hck]
  rw [if_neg (show ¬ ((['F','F'] : List Char) ≠ ['F','F']) from by decide)]
  try simp only [Option.some_bind]
  rw [show parseHex? ['0','0','0','0'] = some 0 from rfl]
  try simp only [Option.some_bind]
  rw [if_neg (not_not_intro ⟨hA, by trivial⟩)]
  rw [if_neg (show ¬ (['0','1'] : List Char) = "00".toList from by decide)]

theorem extLine_eq (bp : Nat) (hbp : bp < 65536) :
    extLine bp = some (':' :: (['0','2'] ++ (['0','0','0','0'] ++ (['0','4']
      ++ (fmt04X bp
          ++ fmt02X (twosComp (2 + 0 + 4 + (bp / 256 + bp % 256)))))))) := by
  rw [show extLine bp
      = (hex_to_sum (fmt04X bp)).map (fun s =>
          ':' :: ("02000004".toList ++ fmt04X bp
            ++ fmt02X (twosComp (2 + 0 + 4 + s)))) from rfl,
    hex_to_sum_fmt04X bp hbp, Option.map_some']
  rfl

theorem readLine_extLine (base bp : Nat) (pl : List (Option (List Word)))
    (hbp : bp < 65536) :
    readLine (base, pl)
        (':' :: (['0','2'] ++ (['0','0','0','0'] ++ (['0','4']
          ++ (fmt04X bp
              ++ fmt02X (twosComp (2 + 0 + 4 + (bp / 256 + bp % 256))))))))
      = some (bp <<< 16, pl) := by
  have hcs : twosComp (2 + 0 + 4 + (bp / 256 + bp % 256)) < 256 := twosComp_lt _
  have hparse := parseLine_parts ['0','2'] ['0','0','0','0'] ['0','4']
    (fmt04X bp) (fmt02X (twosComp (2 + 0 + 4 + (bp / 256 + bp % 256))))
    rfl rfl rfl (fmt02X_length _ hcs) (by
      intro c hc
      rcases List.mem_append.mp hc with hc | hc
      · simp only [List.mem_cons, List.not_mem_nil, or_false] at hc
        rcases hc with rfl | rfl
        · rfl
        · rfl
      rcases List.mem_append.mp hc with hc | hc
      · simp only [List.mem_cons, List.not_mem_nil, or_false] at hc
        rcases hc with rfl | rfl | rfl | rfl
        · rfl
        · rfl
        · rfl
        · rfl
      rcases List.mem_append.mp hc with hc | hc
      · simp only [List.mem_cons, List.not_mem_nil, or_false] at hc
        rcases hc with rfl | rfl
        · rfl
        · rfl
      rcases List.mem_append.mp hc with hc | hc
      · exact isHexUChar_not_ws (fmt04X_chars bp hbp c hc)
      · exact isHexUChar_not_ws (fmt02X_chars _ hcs c hc))
  have hA : (bp <<< 16 + 0) / PAGEBYTES = (bp <<< 16 + 0 + 1) / PAGEBYTES := by
    rw [show PAGEBYTES = 64 from rfl, Nat.shiftLeft_eq,
      show (2 : Nat) ^ 16 = 65536 from by norm_num]
    omega
  unfold readLine
  rw [hparse]
  simp only [Option.bind_eq_bind, Option.some_bind]
  rw [show parseHex? ['0','2'] = some 2 from rfl]
  try simp only [Option.some_bind]
  rw [if_pos (show (['0','4'] : List Char) = "04".toList from by decide)]
  rw [parseHex?_fmt04X bp hbp, Option.map_some']
  try simp only [Option.some_bind]
  rw [show hex_to_sum ['0','0','0','0'] = some 0 from rfl]
  try simp only [Option.some_bind]
  rw [show hex_to_sum ['0','4'] = some 4 from rfl]
  try simp only [Option.some_bind]
  rw [hex_to_sum_fmt04X bp hbp]
  try simp only [Option.some_bind]
  try simp only [ne_eq, not_true_eq_false, if_false]
  rw [show parseHex? ['0','0','0','0'] = some 0 from rfl]
  try simp only [Option.some_bind]
  rw [if_neg (not_not_intro ⟨hA, by trivial⟩)]
  rw [if_neg (show ¬ (['0','4'] : List Char) = "00".toList from by decide)]

theorem hexSetitem_length (pl : List (Option (List Word))) (k : Nat)
    (pg : Option (List Word)) :
    (hexSetitem pl k pg).length = max pl.length (k + 1) := by
  show ((pl ++ List.replicate (k + 1 - pl.length) Option.none).set k
      (some (pageInit pg))).length = _
  rw [List.length_set, List.length_append, List.length_replicate]
  omega

theorem hexSetitem_get_self (pl : List (Option (List Word))) (k : Nat)
    (pg : Option (List Word)) :
    hexGetitem (hexSetitem pl k pg) k = some (pageInit pg) := by
  unfold hexGetitem
  rw [show hexSetitem pl k pg
      = (pl ++ List.replicate (k + 1 - pl.length)
          (Option.none : Option (List Word))).set k (some (pageInit pg)) from rfl]
  rw [List.getElem?_set, if_pos (show k = k from rfl),
    if_pos (show k < (pl ++ List.replicate (k + 1 - pl.length)
        (Option.none : Option (List Word))).length from by
      rw [List.length_append, List.length_replicate]
      omega)]
  rfl

theorem hexSetitem_get_ne (pl : List (Option (List Word))) (k : Nat)
    (pg : Option (List Word)) (p : Nat) (hp : p ≠ k) :
    ((hexSetitem pl k pg)[p]?).join = (pl[p]?).join := by
  show (((pl ++ List.replicate (k + 1 - pl.length) Option.none).set k
      (some (pageInit pg)))[p]?).join = _
  rw [List.getElem?_set, if_neg (show ¬ k = p from fun h => hp h.symm)]
  rcases Nat.lt_or_ge p pl.length with hlt | hge
  · rw [List.getElem?_append_left hlt]
  · rw [List.getElem?_append_right hge, List.getElem?_eq_none hge]
    rw [List.getElem?_replicate]
    rcases Nat.lt_or_ge (p - pl.length) (k + 1 - pl.length) with h2 | h2
    · rw [if_pos h2]
      rfl
    · rw [if_neg (by omega)]

theorem getElem?_some_lt {α : Type} (l : List α) (k : Nat) (a : α)
    (h : l[k]? = some a) : k < l.length := by
  by_contra hc
  rw [List.getElem?_eq_none (by omega)] at h
  exact Option.noConfusion h

theorem pageSetitem_str (cp : List Word) (w : Nat) (run : List Word)
    (d : List Char) (hw : w + run.length ≤ PAGELEN)
    (hd_len : d.length = 4 * run.length)
    (hd_words : strWords d = some run) :
    pageSetitem cp (.slice w (w + run.length)) (.str d)
      = .ok (sliceAssign cp w (w + run.length) run) := by
  unfold pageSetitem
  show (if w + run.length > PAGELEN then (Except.error PyErr.indexError) else _) = _
  rw [if_neg (show ¬ w + run.length > PAGELEN from by omega)]
  show (if (((w + run.length : Nat) : Int) - ((w : Nat) : Int)) * 4
        ≠ ((d.length : Nat) : Int)
      then Except.error PyErr.valueError
      else match strWords d with
        | Option.none => Except.error PyErr.valueError
        | some v => Except.ok (sliceAssign cp w (w + run.length) v)) = _
  rw [if_neg (not_not_intro
    (show (((w + run.length : Nat) : Int) - ((w : Nat) : Int)) * 4
        = ((d.length : Nat) : Int) from by
      push_cast [hd_len]
      ring))]
  rw [hd_words]

theorem dataLine_eq (bc addr S : Nat) (d : List Char)
    (hsum : hex_to_sum d = some S) :
    dataLine bc addr d = some (':' :: (fmt02X bc ++ (fmt04X addr ++ (fmt02X 0
      ++ (d ++ fmt02X (twosComp (bc + addr / 0x100 + (addr &&& 0xFF) + S)))))))
    := by
  rw [show dataLine bc addr d
      = (hex_to_sum d).map (fun s =>
          ':' :: (fmt02X bc ++ fmt04X addr ++ fmt02X 0 ++ d
            ++ fmt02X (twosComp (bc + addr / 0x100 + (addr &&& 0xFF) + s))))
      from rfl,
    hsum, Option.map_some']
  congr 1
  simp [List.append_assoc]

theorem pageNew_wf :
    pageNew.length = PAGELEN
    ∧ ∀ x ∈ pageNew, ∀ v, x = some v → v < 2 ^ 16 := by
  refine ⟨by rw [pageNew, List.length_replicate], ?_⟩
  intro x hx v hv
  rw [List.eq_of_mem_replicate hx] at hv
  exact Option.noConfusion hv

theorem PagesWF_set (pl : List (Option (List Word))) (k : Nat)
    (page2 : List Word) (h : PagesWF pl) (h2len : page2.length = PAGELEN)
    (h2w : ∀ x ∈ page2, ∀ v, x = some v → v < 2 ^ 16) :
    PagesWF (pl.set k (some page2)) := by
  intro pg hpg page hpage
  rcases List.mem_or_eq_of_mem_set hpg with hin | rfl
  · exact h pg hin page hpage
  · obtain rfl : page2 = page := Option.some.inj hpage
    exact ⟨h2len, h2w⟩

theorem PagesWF_hexSetitem_none (pl : List (Option (List Word))) (k : Nat)
    (h : PagesWF pl) : PagesWF (hexSetitem pl k Option.none) := by
  rw [show hexSetitem pl k Option.none
      = (pl ++ List.replicate (k + 1 - pl.length)
          (Option.none : Option (List Word))).set k (some pageNew) from rfl]
  refine PagesWF_set _ k pageNew ?_ pageNew_wf.1 pageNew_wf.2
  intro pg hpg page hpage
  rcases List.mem_append.mp hpg with hin | hin
  · exact h pg hin page hpage
  · rw [List.eq_of_mem_replicate hin] at hpage
    exact Option.noConfusion hpage

theorem sliceAssign_words_wf (cp run : List Word) (w : Nat)
    (hb : w + run.length ≤ cp.length)
    (hcpw : ∀ x ∈ cp, ∀ v, x = some v → v < 2 ^ 16)
    (hrw : ∀ x ∈ run, ∀ v, x = some v → v < 2 ^ 16) :
    ∀ x ∈ sliceAssign cp w (w + run.length) run, ∀ v, x = some v → v < 2 ^ 16 := by
  intro x hx
  rw [sliceAssign_eq cp run w run.length hb] at hx
  rcases List.mem_append.mp hx with hx | hx
  · rcases List.mem_append.mp hx with hx | hx
    · exact hcpw x (List.mem_of_mem_take hx)
    · exact hrw x hx
  · exact hcpw x (List.mem_of_mem_drop hx)

theorem PageSt_words_wf (pl : List (Option (List Word))) (k : Nat)
    (cp : List Word) (hplw : PagesWF pl) (hpst : PageSt pl k cp) :
    ∀ x ∈ cp, ∀ v, x = some v → v < 2 ^ 16 := by
  rcases hpst with ⟨_, hc⟩
  rcases hc with ⟨_, rfl⟩ | hk
  · exact pageNew_wf.2
  · exact (hplw (some cp) (List.getElem?_mem hk) cp rfl).2

theorem readLine_dataLine (k w : Nat) (run : List Word) (d : List Char) (S : Nat)
    (pl : List (Option (List Word))) (cp : List Word)
    (hw : w + run.length ≤ PAGELEN)
    (hrun : run ≠ [])
    (hd_len : d.length = 4 * run.length)
    (hd_chars : ∀ c ∈ d, IsHexUChar c)
    (hd_sum : hex_to_sum d = some S)
    (hd_words : strWords d = some run)
    (hpst : PageSt pl k cp)
    (hplw : PagesWF pl)
    (hrw : ∀ x ∈ run, ∀ v, x = some v → v < 2 ^ 16)
    (line : List Char)
    (hdl : dataLine (2 * run.length) (k % 0x400 * PAGEBYTES + 2 * w) d
        = some line) :
    ∃ pl2,
      readLine ((k / 0x400) <<< 16, pl) line = some ((k / 0x400) <<< 16, pl2)
      ∧ PageSt pl2 k (sliceAssign cp w (w + run.length) run)
      ∧ pl2.length = max pl.length (k + 1)
      ∧ (∀ p, p ≠ k → ((pl2[p]?).join = (pl[p]?).join))
      ∧ PagesWF pl2 := by
  have hline : line = ':' :: (fmt02X (2 * run.length)
      ++ (fmt04X (k % 0x400 * PAGEBYTES + 2 * w)
        ++ (fmt02X 0 ++ (d ++ fmt02X (twosComp (2 * run.length
            + (k % 0x400 * PAGEBYTES + 2 * w) / 0x100
            + ((k % 0x400 * PAGEBYTES + 2 * w) &&& 0xFF) + S)))))) := by
    have h2 := dataLine_eq (2 * run.length) (k % 0x400 * PAGEBYTES + 2 * w) S d hd_sum
    rw [hdl] at h2
    exact Option.some.inj h2
  subst hline
  have hP : PAGELEN = 32 := rfl
  have hPB : PAGEBYTES = 64 := rfl
  have hrle : 1 ≤ run.length := by
    cases run with
    | nil => exact absurd rfl hrun
    | cons a t => simp
  have hbc : 2 * run.length < 256 := by omega
  have hmod : k % 0x400 < 0x400 := Nat.mod_lt _ (by norm_num)
  have haddr : k % 0x400 * PAGEBYTES + 2 * w < 65536 := by
    rw [hPB]
    omega
  have hcs : twosComp (2 * run.length + (k % 0x400 * PAGEBYTES + 2 * w) / 0x100
      + ((k % 0x400 * PAGEBYTES + 2 * w) &&& 0xFF) + S) < 256 := twosComp_lt _
  have hparse := parseLine_parts (fmt02X (2 * run.length))
    (fmt04X (k % 0x400 * PAGEBYTES + 2 * w)) (fmt02X 0) d
    (fmt02X (twosComp (2 * run.length + (k % 0x400 * PAGEBYTES + 2 * w) / 0x100
      + ((k % 0x400 * PAGEBYTES + 2 * w) &&& 0xFF) + S)))
    (fmt02X_length _ hbc) (fmt04X_length _ haddr) (fmt02X_length 0 (by omega))
    (fmt02X_length _ (twosComp_lt _)) (by
      intro c hc
      rcases List.mem_append.mp hc with hc | hc
      · exact isHexUChar_not_ws (fmt02X_chars _ hbc c hc)
      rcases List.mem_append.mp hc with hc | hc
      · exact isHexUChar_not_ws (fmt04X_chars _ haddr c hc)
      rcases List.mem_append.mp hc with hc | hc
      · exact isHexUChar_not_ws (fmt02X_chars 0 (by omega) c hc)
      rcases List.mem_append.mp hc with hc | hc
      · exact isHexUChar_not_ws (hd_chars c hc)
      · exact isHexUChar_not_ws (fmt02X_chars _ (twosComp_lt _) c hc))
  have hsl : (k / 0x400) <<< 16 = k / 0x400 * 65536 := by
    rw [Nat.shiftLeft_eq]
  have hdiv : ((k / 0x400) <<< 16 + (k % 0x400 * PAGEBYTES + 2 * w)) / PAGEBYTES
      = ((k / 0x400) <<< 16 + (k % 0x400 * PAGEBYTES + 2 * w) + 1) / PAGEBYTES := by
    rw [hsl, hPB]
    omega
  have hpn : ((k / 0x400) <<< 16 + (k % 0x400 * PAGEBYTES + 2 * w) + 1) / PAGEBYTES
      = k := by
    rw [hsl, hPB]
    omega
  have hwo : ((k / 0x400) <<< 16 + (k % 0x400 * PAGEBYTES + 2 * w)) % PAGEBYTES / 2
      = w := by
    rw [hsl, hPB]
    omega
  have hwc : 2 * run.length / 2 = run.length := by omega
  have hmain : ∀ PL : List (Option (List Word)),
      (if pl.length ≤ k then hexSetitem pl k Option.none else pl) = PL →
      hexGetitem PL k = some cp →
      readLine ((k / 0x400) <<< 16, pl)
          (':' :: (fmt02X (2 * run.length)
            ++ (fmt04X (k % 0x400 * PAGEBYTES + 2 * w)
              ++ (fmt02X 0 ++ (d ++ fmt02X (twosComp (2 * run.length
                  + (k % 0x400 * PAGEBYTES + 2 * w) / 0x100
                  + ((k % 0x400 * PAGEBYTES + 2 * w) &&& 0xFF) + S)))))))
        = some ((k / 0x400) <<< 16,
            PL.set k (some (sliceAssign cp w (w + run.length) run))) := by
    intro PL hPL hget
    unfold readLine
    rw [hparse]
    simp only [Option.bind_eq_bind, Option.some_bind]
    rw [parseHex?_fmt02X _ hbc]
    try simp only [Option.some_bind]
    rw [fmt02X_zero]
    rw [if_neg (show ¬ ("00".toList : List Char) = "04".toList from by decide)]
    try simp only [Option.some_bind]
    rw [hex_to_sum_fmt04X _ haddr]
    try simp only [Option.some_bind]
    rw [show hex_to_sum "00".toList = some 0 from rfl]
    try simp only [Option.some_bind]
    rw [hd_sum]
    try simp only [Option.some_bind]
    rw [show twosComp (2 * run.length
        + ((k % 0x400 * PAGEBYTES + 2 * w) / 256
          + (k % 0x400 * PAGEBYTES + 2 * w) % 256) + 0 + S)
      = twosComp (2 * run.length + (k % 0x400 * PAGEBYTES + 2 * w) / 0x100
          + ((k % 0x400 * PAGEBYTES + 2 * w) &&& 0xFF) + S) from
      twosComp_congr _ _ (by rw [and255_eq_mod]; omega)]
    try simp only [ne_eq, not_true_eq_false, if_false]
    rw [parseHex?_fmt04X _ haddr]
    try simp only [Option.some_bind]
    rw [if_neg (not_not_intro ⟨hdiv, by trivial⟩)]
    try rw [if_pos (show ("00".toList : List Char) = "00".toList from rfl)]
    try rw [if_pos (show True from trivial)]
    rw [hpn, hwo, hwc, hPL, hget]
    try simp only [Option.some_bind]
    rw [pageSetitem_str cp w run d hw hd_len hd_words]
  rcases hpst with ⟨hcp_len, hcase⟩
  rcases hcase with ⟨hpl_le, rfl⟩ | hplk
  · refine ⟨(hexSetitem pl k Option.none).set k
        (some (sliceAssign pageNew w (w + run.length) run)), ?_, ?_, ?_, ?_, ?_⟩
    · exact hmain (hexSetitem pl k Option.none) (if_pos hpl_le)
        (hexSetitem_get_self pl k Option.none)
    · refine ⟨?_, Or.inr ?_⟩
      · rw [sliceAssign_length pageNew run w run.length
          (by rw [pageNew, List.length_replicate]; omega) rfl,
          pageNew, List.length_replicate]
      · rw [List.getElem?_set, if_pos (show k = k from rfl),
          if_pos (show k < (hexSetitem pl k Option.none).length from by
            rw [hexSetitem_length]
            omega)]
    · rw [List.length_set, hexSetitem_length]
    · intro p hp
      rw [List.getElem?_set, if_neg (show ¬ k = p from fun h => hp h.symm)]
      exact hexSetitem_get_ne pl k Option.none p hp
    · exact PagesWF_set _ k _ (PagesWF_hexSetitem_none pl k hplw)
        (by rw [sliceAssign_length pageNew run w run.length
            (by rw [pageNew, List.length_replicate]; omega) rfl,
          pageNew, List.length_replicate])
        (sliceAssign_words_wf pageNew run w
          (by rw [pageNew, List.length_replicate]; omega) pageNew_wf.2 hrw)
  · have hklt : k < pl.length := getElem?_some_lt pl k (some cp) hplk
    have hcpw : ∀ x ∈ cp, ∀ v, x = some v → v < 2 ^ 16 :=
      (hplw (some cp) (List.getElem?_mem hplk) cp rfl).2
    refine ⟨pl.set k (some (sliceAssign cp w (w + run.length) run)),
      ?_, ?_, ?_, ?_, ?_⟩
    · exact hmain pl (if_neg (by omega))
        (by unfold hexGetitem; rw [hplk]; rfl)
    · refine ⟨?_, Or.inr ?_⟩
      · rw [sliceAssign_length cp run w run.length (by omega) rfl, hcp_len]
      · rw [List.getElem?_set, if_pos (show k = k from rfl),
          if_pos (show k < pl.length from hklt)]
    · rw [List.length_set]
      omega
    · intro p hp
      rw [List.getElem?_set, if_neg (show ¬ k = p from fun h => hp h.symm)]
    · exact PagesWF_set _ k _ hplw
        (by rw [sliceAssign_length cp run w run.length (by omega) rfl, hcp_len])
        (sliceAssign_words_wf cp run w (by omega) hcpw hrw)

theorem writeBlock_read (chunks : List (Nat × List Word)) :
    ∀ (w k : Nat) (pl : List (Option (List Word))) (cp : List Word),
    (∀ gr ∈ chunks, gr.2 ≠ [] ∧ ∀ x ∈ gr.2, ∃ v, x = some v ∧ v < 2 ^ 16) →
    w + chunkExtent chunks ≤ PAGELEN →
    PageSt pl k cp →
    pl.length ≤ k + 1 →
    PagesWF pl →
    ∃ lines pl2,
      writeBlock (k % 0x400 * PAGEBYTES + 2 * w) chunks = some lines
      ∧ List.foldlM readLine ((k / 0x400) <<< 16, pl) lines
          = some ((k / 0x400) <<< 16, pl2)
      ∧ PageSt pl2 k (applyChunks cp w chunks)
      ∧ pl2.length ≤ k + 1
      ∧ (∀ p, p ≠ k → ((pl2[p]?).join = (pl[p]?).join))
      ∧ PagesWF pl2 := by
  induction chunks with
  | nil =>
    intro w k pl cp hwf hext hpst hpllen hplw
    exact ⟨[], pl, rfl, rfl, hpst, hpllen, fun p hp => rfl, hplw⟩
  | cons gr rest ih =>
    intro w k pl cp hwf hext hpst hpllen hplw
    obtain ⟨g, run⟩ := gr
    obtain ⟨hrun_ne, hrun_wf⟩ := hwf (g, run) (List.mem_cons_self _ _)
    obtain ⟨d, hjoin, hdlen, hdchars, hdsum, hdwords⟩ := joinFmt_spec run hrun_wf
    have hrw : ∀ x ∈ run, ∀ v, x = some v → v < 2 ^ 16 := by
      intro x hx v hv
      obtain ⟨v2, hv2, hb2⟩ := hrun_wf x hx
      rw [hv] at hv2
      obtain rfl : v = v2 := Option.some.inj hv2
      exact hb2
    have hce : chunkExtent ((g, run) :: rest) = g + run.length + chunkExtent rest := by
      simp [chunkExtent]
    rw [hce] at hext
    obtain ⟨line, hdl⟩ : ∃ L, dataLine (2 * run.length)
        (k % 0x400 * PAGEBYTES + 2 * (w + g)) d = some L :=
      ⟨_, dataLine_eq _ _ _ d hdsum⟩
    obtain ⟨pl2, hread, hpst2, hlen2, hne2, hplw2⟩ :=
      readLine_dataLine k (w + g) run d _ pl cp (by omega) hrun_ne hdlen
        hdchars hdsum hdwords hpst hplw hrw line hdl
    obtain ⟨linesRest, pl3, hwb, hfoldr, hpst3, hlen3, hne3, hplw3⟩ :=
      ih (w + g + run.length) k pl2
        (sliceAssign cp (w + g) (w + g + run.length) run)
        (fun gr hgr => hwf gr (List.mem_cons_of_mem _ hgr))
        (by omega) hpst2 (by omega) hplw2
    refine ⟨line :: linesRest, pl3, ?_, ?_, hpst3, hlen3, ?_, hplw3⟩
    · simp only [writeBlock, Option.bind_eq_bind]
      rw [hjoin]
      simp only [Option.some_bind]
      rw [show d.length / 2 = 2 * run.length from by omega]
      rw [show k % 0x400 * PAGEBYTES + 2 * w + g * 2
          = k % 0x400 * PAGEBYTES + 2 * (w + g) from by ring]
      rw [hdl]
      simp only [Option.some_bind]
      rw [show k % 0x400 * PAGEBYTES + 2 * (w + g) + 2 * run.length
          = k % 0x400 * PAGEBYTES + 2 * (w + g + run.length) from by ring]
      rw [hwb]
      simp only [Option.some_bind]
      rfl
    · rw [List.foldlM_cons, hread]
      simp only [Option.bind_eq_bind, Option.some_bind]
      exact hfoldr
    · intro p hp
      rw [hne3 p hp, hne2 p hp]

theorem bcGo_apply_none (block : List Word) (w : Nat) (cp : List Word)
    (hcp : cp.length = PAGELEN) (hext : w + block.length ≤ PAGELEN) :
    applyChunks cp w (block_chunks block) = overlay cp w block := by
  rw [show block_chunks block = bcGo block 0 Option.none from rfl]
  have h := bcGo_apply block 0 w Option.none cp hcp (by simp; omega)
  simpa using h

theorem wordAt_of_PageSt (pl : List (Option (List Word))) (k : Nat)
    (cp : List Word) (hpst : PageSt pl k cp) (i : Nat) :
    wordAt pl k i = cp.getD i Option.none := by
  rcases hpst with ⟨hlen, hc⟩
  rcases hc with ⟨hle, rfl⟩ | hk
  · unfold wordAt hexGetitem
    rw [List.getElem?_eq_none (by omega), pageNew_getD]
    rfl
  · unfold wordAt hexGetitem
    rw [hk]
    rfl

theorem writePage_read (k : Nat) (page : List Word)
    (hplen : page.length = PAGELEN)
    (hwords : ∀ x ∈ page, ∀ v, x = some v → v < 2 ^ 16)
    (pl : List (Option (List Word)))
    (hpllen : pl.length ≤ k)
    (hplw : PagesWF pl) :
    ∃ lines pl2,
      writePage k page = some lines
      ∧ List.foldlM readLine ((k / 0x400) <<< 16, pl) lines
          = some ((k / 0x400) <<< 16, pl2)
      ∧ pl2.length ≤ k + 1
      ∧ (∀ p, p ≠ k → ((pl2[p]?).join = (pl[p]?).join))
      ∧ (∀ i, wordAt pl2 k i = page.getD i Option.none)
      ∧ PagesWF pl2 := by
  have hP : PAGELEN = 32 := rfl
  have hbl : ∀ j : Nat, j + 8 ≤ 32 → ((page.drop j).take 8).length = 8 := by
    intro j hj
    rw [List.length_take, List.length_drop, hplen]
    omega
  have hblw : ∀ j : Nat, ∀ v : Nat, some v ∈ (page.drop j).take 8 → v < 2 ^ 16 := by
    intro j v hv
    exact hwords (some v) (List.mem_of_mem_drop (List.mem_of_mem_take hv)) v rfl
  have hwfc : ∀ j : Nat, ∀ gr ∈ block_chunks ((page.drop j).take 8),
      gr.2 ≠ [] ∧ ∀ x ∈ gr.2, ∃ v, x = some v ∧ v < 2 ^ 16 := by
    intro j
    exact bcGo_runs (fun v => v < 2 ^ 16) ((page.drop j).take 8) 0 Option.none
      (hblw j) (by simp)
  have hext : ∀ j : Nat, j + 8 ≤ 32 → ∀ w : Nat, w + 8 ≤ 32 →
      w + chunkExtent (block_chunks ((page.drop j).take 8)) ≤ PAGELEN := by
    intro j hj w hwle
    have h := bcGo_extent ((page.drop j).take 8) 0 Option.none
    simp at h
    rw [show block_chunks ((page.drop j).take 8)
        = bcGo ((page.drop j).take 8) 0 Option.none from rfl]
    omega
  have hplnew : pageNew.length = PAGELEN := by
    rw [pageNew, List.length_replicate]
  obtain ⟨lines0, pl1, hwb0, hfold0, hpst1, hlen1, hne1, hplw1⟩ :=
    writeBlock_read (block_chunks ((page.drop 0).take 8)) 0 k pl pageNew
      (hwfc 0) (hext 0 (by omega) 0 (by omega)) ⟨hplnew, Or.inl ⟨hpllen, rfl⟩⟩
      (by omega) hplw
  obtain ⟨lines1, pl2, hwb1, hfold1, hpst2, hlen2, hne2, hplw2⟩ :=
    writeBlock_read (block_chunks ((page.drop 8).take 8)) 8 k pl1 _
      (hwfc 8) (hext 8 (by omega) 8 (by omega)) hpst1 hlen1 hplw1
  obtain ⟨lines2, pl3, hwb2, hfold2, hpst3, hlen3, hne3, hplw3⟩ :=
    writeBlock_read (block_chunks ((page.drop 16).take 8)) 16 k pl2 _
      (hwfc 16) (hext 16 (by omega) 16 (by omega)) hpst2 hlen2 hplw2
  obtain ⟨lines3, pl4, hwb3, hfold3, hpst4, hlen4, hne4, hplw4⟩ :=
    writeBlock_read (block_chunks ((page.drop 24).take 8)) 24 k pl3 _
      (hwfc 24) (hext 24 (by omega) 24 (by omega)) hpst3 hlen3 hplw3
  have e0 : applyChunks pageNew 0 (block_chunks ((page.drop 0).take 8))
      = overlay pageNew 0 ((page.drop 0).take 8) :=
    bcGo_apply_none _ 0 pageNew hplnew (by rw [hbl 0 (by omega)]; omega)
  have hl0 : (overlay pageNew 0 ((page.drop 0).take 8)).length = PAGELEN := by
    rw [overlay_length, hplnew]
  have e1 : applyChunks (overlay pageNew 0 ((page.drop 0).take 8)) 8
      (block_chunks ((page.drop 8).take 8))
      = overlay (overlay pageNew 0 ((page.drop 0).take 8)) 8
          ((page.drop 8).take 8) :=
    bcGo_apply_none _ 8 _ hl0 (by rw [hbl 8 (by omega)]; omega)
  have hl1 : (overlay (overlay pageNew 0 ((page.drop 0).take 8)) 8
      ((page.drop 8).take 8)).length = PAGELEN := by
    rw [overlay_length, hl0]
  have e2 : applyChunks (overlay (overlay pageNew 0 ((page.drop 0).take 8)) 8
        ((page.drop 8).take 8)) 16 (block_chunks ((page.drop 16).take 8))
      = overlay (overlay (overlay pageNew 0 ((page.drop 0).take 8)) 8
          ((page.drop 8).take 8)) 16 ((page.drop 16).take 8) :=
    bcGo_apply_none _ 16 _ hl1 (by rw [hbl 16 (by omega)]; omega)
  have hl2 : (overlay (overlay (overlay pageNew 0 ((page.drop 0).take 8)) 8
      ((page.drop 8).take 8)) 16 ((page.drop 16).take 8)).length = PAGELEN := by
    rw [overlay_length, hl1]
  have e3 : applyChunks (overlay (overlay (overlay pageNew 0
          ((page.drop 0).take 8)) 8 ((page.drop 8).take 8)) 16
        ((page.drop 16).take 8)) 24 (block_chunks ((page.drop 24).take 8))
      = overlay (overlay (overlay (overlay pageNew 0 ((page.drop 0).take 8)) 8
          ((page.drop 8).take 8)) 16 ((page.drop 16).take 8)) 24
          ((page.drop 24).take 8) :=
    bcGo_apply_none _ 24 _ hl2 (by rw [hbl 24 (by omega)]; omega)
  refine ⟨lines0 ++ (lines1 ++ (lines2 ++ lines3)), pl4, ?_, ?_, hlen4, ?_, ?_,
    hplw4⟩
  · simp only [writePage]
    rw [show PAGELEN / 4 = 8 from rfl]
    simp only [List.mapM_cons, List.mapM_nil, Option.bind_eq_bind]
    rw [show k % 0x400 * PAGEBYTES + 0 * 2 = k % 0x400 * PAGEBYTES + 2 * 0
        from by ring, hwb0]
    simp only [Option.some_bind]
    rw [show k % 0x400 * PAGEBYTES + 8 * 2 = k % 0x400 * PAGEBYTES + 2 * 8
        from by ring, hwb1]
    simp only [Option.some_bind]
    rw [show k % 0x400 * PAGEBYTES + 16 * 2 = k % 0x400 * PAGEBYTES + 2 * 16
        from by ring, hwb2]
    simp only [Option.some_bind]
    rw [show k % 0x400 * PAGEBYTES + 24 * 2 = k % 0x400 * PAGEBYTES + 2 * 24
        from by ring, hwb3]
    simp only [Option.pure_def, Option.some_bind, Option.map_some']
    rw [show List.flatten [lines0, lines1, lines2, lines3]
        = lines0 ++ (lines1 ++ (lines2 ++ lines3)) from by simp]
  · rw [List.foldlM_append, hfold0]
    simp only [Option.bind_eq_bind, Option.some_bind]
    rw [List.foldlM_append, hfold1]
    simp only [Option.bind_eq_bind, Option.some_bind]
    rw [List.foldlM_append, hfold2]
    simp only [Option.bind_eq_bind, Option.some_bind]
    exact hfold3
  · intro p hp
    rw [hne4 p hp, hne3 p hp, hne2 p hp, hne1 p hp]
  · intro i
    rw [wordAt_of_PageSt pl4 k _ hpst4 i, e0, e1, e2, e3]
    exact overlay_page page hplen i

theorem writeLoop_read (pgs : List (Option (List Word))) :
    ∀ (k : Nat) (b : Int) (base : Nat) (pl : List (Option (List Word))),
    k + pgs.length ≤ 0x400 * 0x10000 →
    (∀ pg ∈ pgs, ∀ page, pg = some page →
        page.length = PAGELEN ∧ ∀ x ∈ page, ∀ v, x = some v → v < 2 ^ 16) →
    (b < ((k / 0x400 : Nat) : Int)
      ∨ (b = ((k / 0x400 : Nat) : Int) ∧ base = (k / 0x400) <<< 16)) →
    pl.length ≤ k →
    base % 65536 = 0 →
    PagesWF pl →
    ∃ lines pl2 base2,
      writeLoop b k pgs = some lines
      ∧ List.foldlM readLine (base, pl) lines = some (base2, pl2)
      ∧ base2 % 65536 = 0
      ∧ pl2.length ≤ k + pgs.length
      ∧ (∀ p i, p < k → wordAt pl2 p i = wordAt pl p i)
      ∧ (∀ p i, k ≤ p → wordAt pl2 p i = wordAt pgs (p - k) i)
      ∧ PagesWF pl2 := by
  induction pgs with
  | nil =>
    intro k b base pl hk hwf hb hpl hb64 hplw
    refine ⟨[], pl, base, rfl, rfl, hb64, by simpa using hpl, fun p i _ => rfl, ?_,
      hplw⟩
    intro p i hp
    unfold wordAt hexGetitem
    rw [List.getElem?_eq_none (show pl.length ≤ p from by omega)]
    rfl
  | cons pg rest ih =>
    intro k b base pl hk hwf hb hpl hb64 hplw
    have hk1 : k + rest.length + 1 ≤ 0x400 * 0x10000 := by
      simp only [List.length_cons] at hk
      omega
    have hbp : k / 0x400 < 65536 := by omega
    have hshift : (k / 0x400) <<< 16 % 65536 = 0 := by
      rw [Nat.shiftLeft_eq, show (2 : Nat) ^ 16 = 65536 from by norm_num]
      omega
    obtain ⟨extL, hextEq, hextFold⟩ :
        ∃ extL, (if b < ((k / 0x400 : Nat) : Int)
            then (extLine (k / 0x400)).map (fun l => [l]) else some []) = some extL
          ∧ List.foldlM readLine (base, pl) extL
              = some ((k / 0x400) <<< 16, pl) := by
      rcases hb with hlt | ⟨hbe, hbase⟩
      · obtain ⟨el, hel⟩ : ∃ el, extLine (k / 0x400) = some el :=
          ⟨_, extLine_eq (k / 0x400) hbp⟩
        have helval : el = ':' :: (['0','2'] ++ (['0','0','0','0'] ++ (['0','4']
            ++ (fmt04X (k / 0x400)
              ++ fmt02X (twosComp (2 + 0 + 4
                  + ((k / 0x400) / 256 + (k / 0x400) % 256))))))) := by
          have h2 := extLine_eq (k / 0x400) hbp
          rw [hel] at h2
          exact Option.some.inj h2
        refine ⟨[el], ?_, ?_⟩
        · rw [if_pos hlt, hel, Option.map_some']
        · rw [List.foldlM_cons, helval,
            readLine_extLine base (k / 0x400) pl hbp]
          rfl
      · refine ⟨[], ?_, ?_⟩
        · rw [if_neg (show ¬ b < ((k / 0x400 : Nat) : Int) from by
            rw [hbe]; exact lt_irrefl _)]
        · rw [hbase]
          rfl
    have hb2 : (if b < ((k / 0x400 : Nat) : Int)
        then ((k / 0x400 : Nat) : Int) else b) = ((k / 0x400 : Nat) : Int) := by
      rcases hb with hlt | ⟨hbe, _⟩
      · rw [if_pos hlt]
      · rw [if_neg (show ¬ b < ((k / 0x400 : Nat) : Int) from by
          rw [hbe]; exact lt_irrefl _), hbe]
    obtain ⟨pageL, plp, hpgEq, hpgFold, hplp_len, hplp_ne, hplp_k, hplp_wf⟩ :
        ∃ pageL plp, (match pg with
            | Option.none => some []
            | some page => writePage k page) = some pageL
          ∧ List.foldlM readLine ((k / 0x400) <<< 16, pl) pageL
              = some ((k / 0x400) <<< 16, plp)
          ∧ plp.length ≤ k + 1
          ∧ (∀ p, p ≠ k → ((plp[p]?).join = (pl[p]?).join))
          ∧ (∀ i, wordAt plp k i = wordAt (pg :: rest) 0 i)
          ∧ PagesWF plp := by
      cases pg with
      | none =>
        refine ⟨[], pl, rfl, rfl, by omega, fun p _ => rfl, ?_, hplw⟩
        intro i
        unfold wordAt hexGetitem
        rw [List.getElem?_eq_none (show pl.length ≤ k from hpl),
          List.getElem?_cons_zero]
        rfl
      | some page =>
        obtain ⟨hpglen, hpgwords⟩ :=
          hwf (some page) (List.mem_cons_self _ _) page rfl
        obtain ⟨lines, plp, hwp, hfold, hlen, hne, hk_words, hwfp⟩ :=
          writePage_read k page hpglen hpgwords pl hpl hplw
        refine ⟨lines, plp, hwp, hfold, hlen, hne, ?_, hwfp⟩
        intro i
        rw [hk_words i]
        unfold wordAt hexGetitem
        rw [List.getElem?_cons_zero]
        rfl
    obtain ⟨restL, pl2, base2, hwlr, hfoldr, hb64r, hlen2, hlow, hhigh, hplw2⟩ :=
      ih (k + 1) ((k / 0x400 : Nat) : Int) ((k / 0x400) <<< 16) plp
        (by simp at hk ⊢; omega)
        (fun pg2 hpg2 => hwf pg2 (List.mem_cons_of_mem _ hpg2))
        (by
          by_cases hq : k / 0x400 = (k + 1) / 0x400
          · exact Or.inr ⟨by rw [hq], by rw [← hq]⟩
          · refine Or.inl ?_
            have : k / 0x400 < (k + 1) / 0x400 := by omega
            exact_mod_cast this)
        hplp_len hshift hplp_wf
    refine ⟨extL ++ pageL ++ restL, pl2, base2, ?_, ?_, hb64r, ?_, ?_, ?_, hplw2⟩
    · simp only [writeLoop, Option.bind_eq_bind]
      split
      · rename_i hlt
        rw [if_pos hlt] at hextEq
        rw [hextEq]
        simp only [Option.some_bind]
        cases pg with
        | none =>
          have hpe : pageL = [] := (Option.some.inj hpgEq).symm
          subst hpe
          simp only [Option.some_bind]
          rw [hwlr]
          simp only [Option.some_bind]
          rfl
        | some page =>
          have hpw : writePage k page = some pageL := hpgEq
          show ((writePage k page).bind fun y =>
              (writeLoop ((k / 0x400 : Nat) : Int) (k + 1) rest).bind fun r =>
                pure (extL ++ y ++ r)) = some (extL ++ pageL ++ restL)
          rw [hpw]
          simp only [Option.some_bind]
          rw [hwlr]
          simp only [Option.some_bind]
          rfl
      · rename_i hge
        rcases hb with hlt | ⟨hbe, hbase⟩
        · exact absurd hlt hge
        rw [if_neg hge] at hextEq
        have hee : extL = [] := (Option.some.inj hextEq).symm
        subst hee
        have hwlb : writeLoop b (k + 1) rest = some restL := by
          rw [hbe]
          exact hwlr
        simp only [Option.some_bind]
        cases pg with
        | none =>
          have hpe : pageL = [] := (Option.some.inj hpgEq).symm
          subst hpe
          simp only [Option.some_bind]
          rw [hwlb]
          simp only [Option.some_bind]
          rfl
        | some page =>
          have hpw : writePage k page = some pageL := hpgEq
          show ((writePage k page).bind fun y =>
              (writeLoop b (k + 1) rest).bind fun r =>
                pure (([] : List (List Char)) ++ y ++ r))
            = some ([] ++ pageL ++ restL)
          rw [hpw]
          simp only [Option.some_bind]
          rw [hwlb]
          simp only [Option.some_bind]
          rfl
    · rw [show extL ++ pageL ++ restL = extL ++ (pageL ++ restL) from by
        simp [List.append_assoc]]
      rw [List.foldlM_append, hextFold]
      simp only [Option.bind_eq_bind, Option.some_bind]
      rw [List.foldlM_append, hpgFold]
      simp only [Option.bind_eq_bind, Option.some_bind]
      exact hfoldr
    · simp only [List.length_cons] at hlen2 ⊢
      omega
    · intro p i hp
      rw [hlow p i (by omega)]
      unfold wordAt hexGetitem
      rw [hplp_ne p (by omega)]
    · intro p i hp
      rcases Nat.eq_or_lt_of_le hp with rfl | hgt
      · rw [hlow k i (by omega), show k - k = 0 from by omega]
        exact hplp_k i
      · rw [hhigh p i (by omega)]
        unfold wordAt hexGetitem
        rw [show p - k = (p - (k + 1)) + 1 from by omega, List.getElem?_cons_succ]

/-- Executable sufficient check for WFImage. -/
def wfCheck (hf : List (Option (List Word))) : Bool :=
  decide (hf.length ≤ 0x400 * 0x10000) &&
  hf.all fun pg =>
    match pg with
    | Option.none => true
    | some page =>
      decide (page.length = PAGELEN) &&
      page.all fun x =>
        match x with
        | Option.none => true
        | some v => decide (v < 2 ^ 16)

theorem WFImage_of_check (hf : List (Option (List Word)))
    (h : wfCheck hf = true) : WFImage hf := by
  unfold wfCheck at h
  rw [Bool.and_eq_true, List.all_eq_true] at h
  obtain ⟨h1, h2⟩ := h
  refine ⟨by exact_mod_cast of_decide_eq_true h1, ?_⟩
  intro pg hpg page hpage
  subst hpage
  have h3 := h2 (some page) hpg
  rw [Bool.and_eq_true, List.all_eq_true] at h3
  obtain ⟨h4, h5⟩ := h3
  refine ⟨of_decide_eq_true h4, ?_⟩
  intro x hx v hv
  subst hv
  exact of_decide_eq_true (h5 (some v) hx)

/-- Hexfile.write succeeds on a well-formed image, Hexfile.read parses
the text back into an image that agrees word for word, and the parsed
image is itself well formed (its pages are PAGELEN lists of concrete
16-bit or absent words), so the round trip can be iterated. -/
theorem write_read_agree (hf : List (Option (List Word))) (hwf : WFImage hf) :
    ∃ lines out,
      write hf = some lines
      ∧ read lines = some out
      ∧ (∀ p i, wordAt out p i = wordAt hf p i)
      ∧ WFImage out := by
  obtain ⟨hlen, hpages⟩ := hwf
  obtain ⟨lines0, pl2, base2, hwl, hfold, hb64, hlen2, hlow, hhigh, hplw2⟩ :=
    writeLoop_read hf 0 (-1) 0 []
      (by simpa using hlen)
      (fun pg hpg page hpg2 => hpages pg hpg page hpg2)
      (Or.inl (by norm_num))
      (by simp)
      (by norm_num)
      (fun pg hpg => absurd hpg (List.not_mem_nil _))
  refine ⟨lines0 ++ [eofLine], pl2, ?_, ?_, ?_, ?_⟩
  · unfold write
    rw [hwl, Option.map_some']
  · unfold read
    rw [List.foldlM_append, hfold]
    simp only [Option.bind_eq_bind, Option.some_bind]
    rw [List.foldlM_cons, readLine_eofLine base2 pl2 (by omega)]
    simp only [Option.bind_eq_bind, Option.some_bind]
    rfl
  · intro p i
    exact hhigh p i (by omega)
  · exact ⟨by omega, hplw2⟩

/-- C1 (amended): parse after serialize is the identity word for word on
every well-formed memory image, and serialize after parse reproduces the
text's content: re-serializing the parsed image succeeds and the re-read
image still agrees with it word for word.  (Byte-identity of the re-
serialized text fails in the code; see the counterexample.) -/
theorem C1_hex_roundtrip (hf : List (Option (List Word))) (hwf : WFImage hf) :
    ∃ lines out,
      write hf = some lines
      ∧ read lines = some out
      ∧ (∀ p i, wordAt out p i = wordAt hf p i)
      ∧ ∃ lines2 out2,
          write out = some lines2
          ∧ read lines2 = some out2
          ∧ ∀ p i, wordAt out2 p i = wordAt out p i := by
  obtain ⟨lines, out, h1, h2, h3, hwfo⟩ := write_read_agree hf hwf
  obtain ⟨lines2, out2, g1, g2, g3, _⟩ := write_read_agree out hwfo
  exact ⟨lines, out, h1, h2, h3, lines2, out2, g1, g2, g3⟩

/-- A sample page: two word runs separated and followed by absent
positions. -/
def pageSample : List Word :=
  [some 0x3FFF, some 0x2800, Option.none, Option.none, some 0x0012]
    ++ List.replicate 27 (Option.none : Word)

def hfSample : List (Option (List Word)) := [Option.none, some pageSample]

/-- C1 witness: the hypotheses of the round-trip theorem hold for the
concrete sample image. -/
theorem C1_hex_roundtrip_witness :
    WFImage hfSample
    ∧ ∃ lines out,
        write hfSample = some lines
        ∧ read lines = some out
        ∧ (∀ p i, wordAt out p i = wordAt hfSample p i)
        ∧ ∃ lines2 out2,
            write out = some lines2
            ∧ read lines2 = some out2
            ∧ ∀ p i, wordAt out2 p i = wordAt out p i :=
  ⟨WFImage_of_check hfSample (by decide),
    C1_hex_roundtrip hfSample (WFImage_of_check hfSample (by decide))⟩

/-- One step of the page loop, present-page case, with the continuation
written as plain binds. -/
theorem writeLoop_cons_some (b : Int) (k : Nat) (page : List Word)
    (rest : List (Option (List Word))) :
    writeLoop b k (some page :: rest)
      = (if b < ((k / 0x400 : Nat) : Int)
          then (extLine (k / 0x400)).map (fun l => [l]) else some []).bind
          fun extPart =>
        (writePage k page).bind fun pagePart =>
        (writeLoop (if b < ((k / 0x400 : Nat) : Int)
            then ((k / 0x400 : Nat) : Int) else b) (k + 1) rest).bind
          fun restLines => some (extPart ++ pagePart ++ restLines) := by
  simp only [writeLoop, Option.bind_eq_bind]
  split <;> rfl

/-- One step of the page loop, absent-page case. -/
theorem writeLoop_cons_none (b : Int) (k : Nat)
    (rest : List (Option (List Word))) :
    writeLoop b k (Option.none :: rest)
      = (if b < ((k / 0x400 : Nat) : Int)
          then (extLine (k / 0x400)).map (fun l => [l]) else some []).bind
          fun extPart =>
        (writeLoop (if b < ((k / 0x400 : Nat) : Int)
            then ((k / 0x400 : Nat) : Int) else b) (k + 1) rest).bind
          fun restLines => some (extPart ++ [] ++ restLines) := by
  simp only [writeLoop, Option.bind_eq_bind]
  split <;> rfl

/-- Absent pages whose 64K block does not exceed the current base_page
emit nothing and leave the loop state unchanged. -/
theorem writeLoop_none_append (m : Nat) : ∀ (k : Nat) (b : Int)
    (tail : List (Option (List Word))),
    (∀ j, k ≤ j → j < k + m → ((j / 0x400 : Nat) : Int) ≤ b) →
    writeLoop b k (List.replicate m Option.none ++ tail)
      = writeLoop b (k + m) tail := by
  induction m with
  | zero =>
    intro k b tail h
    rfl
  | succ n ihn =>
    intro k b tail h
    rw [show List.replicate (n + 1) Option.none ++ tail
        = Option.none :: (List.replicate n Option.none ++ tail) from rfl]
    rw [writeLoop_cons_none]
    rw [if_neg (show ¬ b < ((k / 0x400 : Nat) : Int) from
        not_lt.mpr (h k (le_refl k) (by omega))),
      if_neg (show ¬ b < ((k / 0x400 : Nat) : Int) from
        not_lt.mpr (h k (le_refl k) (by omega)))]
    simp only [Option.some_bind]
    rw [ihn (k + 1) b tail (fun j hj hj2 => h j (by omega) (by omega))]
    rw [show k + 1 + n = k + (n + 1) from by omega]
    simp only [List.nil_append]
    cases hW : writeLoop b (k + (n + 1)) tail with
    | none => rfl
    | some ls => rfl

/-- C1 counterexample to byte-identity of serialize after parse: an
image whose trailing absent pages cross a 64K boundary makes write emit
a final extended-address record that the parsed image does not
reproduce, so re-serializing the parse of the text yields different
text. -/
theorem readFold_append (b c d : Nat × List (Option (List Word)))
    (l l' : List (List Char))
    (h1 : List.foldlM readLine b l = some c)
    (h2 : List.foldlM readLine c l' = some d) :
    List.foldlM readLine b (l ++ l') = some d := by
  rw [List.foldlM_append, h1]
  simp only [Option.bind_eq_bind, Option.some_bind]
  exact h2

theorem C1_serialize_parse_counterexample :
    ∃ lines out lines2,
      write (some pageSample :: List.replicate 1024 Option.none) = some lines
      ∧ read lines = some out
      ∧ write out = some lines2
      ∧ lines2 ≠ lines := by
  obtain ⟨hplen, hpwords⟩ :=
    (WFImage_of_check [some pageSample] (by decide)).2 (some pageSample)
      (List.mem_cons_self _ _) pageSample rfl
  have hbp0 : 0 / 0x400 < 65536 := by decide
  have hbp1 : 1024 / 0x400 < 65536 := by decide
  obtain ⟨el0, hel0⟩ : ∃ el, extLine (0 / 0x400) = some el :=
    ⟨_, extLine_eq _ hbp0⟩
  obtain ⟨el1, hel1⟩ : ∃ el, extLine (1024 / 0x400) = some el :=
    ⟨_, extLine_eq _ hbp1⟩
  have hel0val : el0 = ':' :: (['0','2'] ++ (['0','0','0','0'] ++ (['0','4']
      ++ (fmt04X (0 / 0x400)
        ++ fmt02X (twosComp (2 + 0 + 4
            + ((0 / 0x400) / 256 + (0 / 0x400) % 256))))))) := by
    have h2 := extLine_eq (0 / 0x400) hbp0
    rw [hel0] at h2
    exact Option.some.inj h2
  have hel1val : el1 = ':' :: (['0','2'] ++ (['0','0','0','0'] ++ (['0','4']
      ++ (fmt04X (1024 / 0x400)
        ++ fmt02X (twosComp (2 + 0 + 4
            + ((1024 / 0x400) / 256 + (1024 / 0x400) % 256))))))) := by
    have h2 := extLine_eq (1024 / 0x400) hbp1
    rw [hel1] at h2
    exact Option.some.inj h2
  obtain ⟨linesP, plp, hwp, hfoldP, hplp_len, hplp_ne, hplp_words, hplp_wf⟩ :=
    writePage_read 0 pageSample hplen hpwords [] (by simp)
      (fun pg hpg => absurd hpg (List.not_mem_nil _))
  have hwl_boundary : writeLoop ((0 / 0x400 : Nat) : Int) 1024 [Option.none]
      = some [el1] := by
    rw [writeLoop_cons_none,
      if_pos (show ((0 / 0x400 : Nat) : Int) < ((1024 / 0x400 : Nat) : Int)
        from by decide),
      if_pos (show ((0 / 0x400 : Nat) : Int) < ((1024 / 0x400 : Nat) : Int)
        from by decide),
      hel1, Option.map_some']
    simp only [Option.some_bind]
    rw [show writeLoop ((1024 / 0x400 : Nat) : Int) (1024 + 1)
        ([] : List (Option (List Word))) = some [] from rfl]
    simp only [Option.some_bind]
    rfl
  have hwl_mid : writeLoop ((0 / 0x400 : Nat) : Int) 1
      (List.replicate 1024 Option.none) = some [el1] := by
    rw [show (1024 : Nat) = 1023 + 1 from rfl, List.replicate_succ',
      show List.replicate 1023 (Option.none : Option (List Word))
          ++ [Option.none]
        = List.replicate 1023 (Option.none : Option (List Word))
          ++ [Option.none] from rfl,
      writeLoop_none_append 1023 1 _ [Option.none] (by
        intro j h1 h2
        have hj : j / 0x400 = 0 / 0x400 := by omega
        rw [hj]),
      show 1 + 1023 = 1023 + 1 from by omega]
    exact hwl_boundary
  have hwA : writeLoop (-1) 0 (some pageSample :: List.replicate 1024 Option.none)
      = some (([el0] ++ linesP) ++ [el1]) := by
    rw [writeLoop_cons_some,
      if_pos (show (-1 : Int) < ((0 / 0x400 : Nat) : Int) from by decide),
      if_pos (show (-1 : Int) < ((0 / 0x400 : Nat) : Int) from by decide),
      hel0, Option.map_some']
    simp only [Option.some_bind]
    rw [hwp]
    simp only [Option.some_bind]
    rw [show (0 : Nat) + 1 = 1 from rfl, hwl_mid]
    simp only [Option.some_bind]
  have s1 : List.foldlM readLine (0, ([] : List (Option (List Word))))
      [el0] = some ((0 / 0x400) <<< 16, []) := by
    rw [List.foldlM_cons, hel0val,
      readLine_extLine 0 (0 / 0x400) [] hbp0]
    rfl
  have s3 : List.foldlM readLine (((0 / 0x400) <<< 16 : Nat), plp)
      [el1] = some ((1024 / 0x400) <<< 16, plp) := by
    rw [List.foldlM_cons, hel1val,
      readLine_extLine ((0 / 0x400) <<< 16) (1024 / 0x400) plp hbp1]
    rfl
  have s4 : List.foldlM readLine (((1024 / 0x400) <<< 16 : Nat), plp)
      [eofLine] = some ((1024 / 0x400) <<< 16, plp) := by
    rw [List.foldlM_cons,
      readLine_eofLine ((1024 / 0x400) <<< 16) plp (by decide)]
    rfl
  have hfoldB : List.foldlM readLine (0, ([] : List (Option (List Word))))
      ((([el0] ++ linesP) ++ [el1]) ++ [eofLine])
      = some ((1024 / 0x400) <<< 16, plp) :=
    readFold_append _ _ _ _ _
      (readFold_append _ _ _ _ _
        (readFold_append _ _ _ _ _ s1 hfoldP) s3) s4
  have hps_getD0 : pageSample.getD 0 Option.none = some 0x3FFF := rfl
  have hps_len : pageSample.length = 32 := by decide
  have hplp0 : plp[0]? = some (some pageSample) := by
    have habs : ∀ h0 : (plp[0]?).join = Option.none, False := by
      intro h0
      have h1 := hplp_words 0
      unfold wordAt hexGetitem at h1
      rw [h0] at h1
      rw [hps_getD0] at h1
      exact Option.noConfusion h1
    cases hx : plp[0]? with
    | none => exact absurd (by rw [hx]; rfl) (fun h => habs h)
    | some pg0 =>
      cases pg0 with
      | none => exact absurd (by rw [hx]; rfl) (fun h => habs h)
      | some page =>
        obtain ⟨hpgl, _⟩ := hplp_wf (some page) (List.getElem?_mem hx) page rfl
        have hgd : ∀ i, page.getD i Option.none
            = pageSample.getD i Option.none := by
          intro i
          have h1 := hplp_words i
          unfold wordAt hexGetitem at h1
          rw [hx] at h1
          exact h1
        have hpe : page = pageSample := by
          apply List.ext_getElem?
          intro i
          have hP32 : PAGELEN = 32 := rfl
          rcases Nat.lt_or_ge i 32 with hi | hi
          · have e1 : page[i]? = some (page.getD i Option.none) := by
              rw [List.getD_eq_getElem?_getD]
              cases hy : page[i]? with
              | none =>
                rw [List.getElem?_eq_none_iff] at hy
                omega
              | some a => rfl
            have e2 : pageSample[i]? = some (pageSample.getD i Option.none) := by
              rw [List.getD_eq_getElem?_getD]
              cases hy : pageSample[i]? with
              | none =>
                rw [List.getElem?_eq_none_iff] at hy
                omega
              | some a => rfl
            rw [e1, e2, hgd i]
          · rw [List.getElem?_eq_none (by omega),
              List.getElem?_eq_none (by omega)]
        rw [hpe]
  have hplp_eq : plp = [some pageSample] := by
    have h0 : 0 < plp.length := by
      by_contra h
      rw [List.getElem?_eq_none (by omega)] at hplp0
      exact Option.noConfusion hplp0
    apply List.ext_getElem?
    intro i
    cases i with
    | zero =>
      rw [hplp0]
      rfl
    | succ n =>
      rw [List.getElem?_eq_none (by omega),
        List.getElem?_eq_none (show ([some pageSample] : List (Option (List Word))).length ≤ n + 1 from by
          simp)]
  refine ⟨(([el0] ++ linesP) ++ [el1]) ++ [eofLine], plp,
    (([el0] ++ linesP) ++ []) ++ [eofLine], ?_, ?_, ?_, ?_⟩
  · unfold write
    rw [hwA, Option.map_some']
  · unfold read
    rw [hfoldB, Option.map_some']
  · rw [hplp_eq]
    unfold write
    rw [writeLoop_cons_some,
      if_pos (show (-1 : Int) < ((0 / 0x400 : Nat) : Int) from by decide),
      if_pos (show (-1 : Int) < ((0 / 0x400 : Nat) : Int) from by decide),
      hel0, Option.map_some']
    simp only [Option.some_bind]
    rw [hwp]
    simp only [Option.some_bind]
    rw [show writeLoop ((0 / 0x400 : Nat) : Int) (0 + 1)
        ([] : List (Option (List Word))) = some [] from rfl]
    simp only [Option.some_bind, Option.map_some']
  · intro h
    have hlen := congrArg List.length h
    simp only [List.length_append, List.length_cons, List.length_nil] at hlen
    omega

end Pyload
